import Mathlib

/-!
Verification of the ai-project-planner server core: input sanitizer
(`sanitizeString` in app/lib/utils.ts), fixed-window rate limiter
(lib.server/rate-limit.ts), JSON response recovery and plan normalization
(app/routes/api.plans.generate.ts), zod payload/plan validation
(app/lib/schema.ts) and the two route actions.

Strings are modelled as `List Char`; epoch-millisecond clocks as `Nat`;
the process-wide mutable rate-limit map as an explicit state threaded
through calls.  Everything is executable.
-/

/-! ## Character classes -/

/-- JavaScript whitespace: the set matched by the regex class `\s` and
trimmed by `String.prototype.trim` (ECMA-262 WhiteSpace plus
LineTerminator).  Note U+200B is NOT in this set while U+FEFF is. -/
def isJsWs (c : Char) : Bool :=
  c.toNat = 0x20 || c.toNat = 0x09 || c.toNat = 0x0A || c.toNat = 0x0B ||
  c.toNat = 0x0C || c.toNat = 0x0D || c.toNat = 0xA0 || c.toNat = 0x1680 ||
  (0x2000 ≤ c.toNat && c.toNat ≤ 0x200A) || c.toNat = 0x2028 ||
  c.toNat = 0x2029 || c.toNat = 0x202F || c.toNat = 0x205F ||
  c.toNat = 0x3000 || c.toNat = 0xFEFF

/-- ASCII control characters removed by sanitizer step 2: the regex
`[\x00-\x1F\x7F]`. -/
def isCtlChar (c : Char) : Bool := c.toNat ≤ 0x1F || c.toNat = 0x7F

/-- Characters removed by sanitizer step 3, the regex
`[<>'"`;{}[\]\\]` (prompt/JSON-injection characters). -/
def isDangerousChar (c : Char) : Bool :=
  c.toNat = 0x3C || c.toNat = 0x3E || c.toNat = 0x27 || c.toNat = 0x22 ||
  c.toNat = 0x60 || c.toNat = 0x3B || c.toNat = 0x7B || c.toNat = 0x7D ||
  c.toNat = 0x5B || c.toNat = 0x5D || c.toNat = 0x5C

/-- Zero-width / BOM characters removed by sanitizer step 5, the regex
`[​-‍﻿]`. -/
def isZeroWidthChar (c : Char) : Bool :=
  (0x200B ≤ c.toNat && c.toNat ≤ 0x200D) || c.toNat = 0xFEFF

/-! ## List helpers shared by the string pipeline -/

/-- Drop trailing characters satisfying `p` (structural recursion, used to
model the right half of `String.prototype.trim`). -/
def dropTrailing (p : Char → Bool) : List Char → List Char
  | [] => []
  | c :: rest =>
      let r := dropTrailing p rest
      if r.isEmpty then (if p c then [] else [c]) else c :: r

/-- JavaScript `String.prototype.trim` on a character list. -/
def jsTrim (l : List Char) : List Char := dropTrailing isJsWs (l.dropWhile isJsWs)

/-- Worker for whitespace collapsing: the flag records whether the previous
emitted position was inside a whitespace run.  Models the regex replace
`\s+` → a single space `" "`. -/
def collapseWsAux (prevWs : Bool) : List Char → List Char
  | [] => []
  | c :: rest =>
      if isJsWs c then
        if prevWs then collapseWsAux true rest
        else ' ' :: collapseWsAux true rest
      else c :: collapseWsAux false rest

/-- Collapse every maximal run of JS whitespace to a single space. -/
def collapseWs (l : List Char) : List Char := collapseWsAux false l

/-! ## Input sanitizer (`sanitizeString` in app/lib/utils.ts) -/

/-- Model of `sanitizeString(input, maxLength)` (default `maxLength` is 500):
trim and truncate, strip control characters, strip injection characters,
collapse whitespace, strip zero-width characters, trim again. -/
def sanitizeString (input : List Char) (maxLength : Nat) : List Char :=
  let s1 := (jsTrim input).take maxLength
  let s2 := s1.filter (fun c => !isCtlChar c)
  let s3 := s2.filter (fun c => !isDangerousChar c)
  let s4 := collapseWs s3
  let s5 := s4.filter (fun c => !isZeroWidthChar c)
  jsTrim s5

/-- The zero-width characters U+200B–U+200D: removed by sanitizer step 5
but, unlike U+FEFF, not part of JS whitespace, so step 4 does not collapse
around them. -/
def isPureZeroWidth (c : Char) : Bool :=
  0x200B ≤ c.toNat && c.toNat ≤ 0x200D

/-- Two adjacent characters not both whitespace (the shape of collapsed
output). -/
def wsSeparated (a b : Char) : Prop := isJsWs a = false ∨ isJsWs b = false

/-! ## Constants (app/lib/constants.ts) -/

def MAX_PHASES : Nat := 5

def MAX_TASKS_PER_PHASE : Nat := 5

def RATE_LIMIT_GENERATE_MAX : Nat := 5

def RATE_LIMIT_GENERATE_WINDOW_MS : Nat := 2 * 60 * 1000

def RATE_LIMIT_EXPLAIN_MAX : Nat := 10

def RATE_LIMIT_EXPLAIN_WINDOW_MS : Nat := 5 * 60 * 1000

def CLEANUP_INTERVAL : Nat := 60000

/-! ## Rate limiter (lib.server/rate-limit.ts)

The module-level `rateLimitMap : Map<string, RateLimitRecord>` and
`lastCleanup` variables become an explicit `RLState` value threaded
through calls.  The map is modelled as a function from identifiers to
optional records; `Date.now()` becomes the `now : Nat` argument.  Note
that the single map is shared by every caller of `checkRateLimit` —
both route modules import the same limiter module instance. -/

structure RateLimitRecord where
  count : Nat
  resetAt : Nat
deriving DecidableEq, Repr

/-- The shared `rateLimitMap`. -/
def RLMap : Type := String → Option RateLimitRecord

/-- Whole mutable state of the limiter module: the map plus `lastCleanup`. -/
structure RLState where
  map : RLMap
  lastCleanup : Nat

/-- State at module load: empty map, `lastCleanup = Date.now()` at load. -/
def rlInit (loadTime : Nat) : RLState := ⟨fun _ => none, loadTime⟩

/-- Point update of the map, modelling `rateLimitMap.set` /
in-place record mutation. -/
def rlSet (m : RLMap) (k : String) (r : RateLimitRecord) : RLMap :=
  fun k2 => if k2 = k then some r else m k2

/-- Result record returned by `checkRateLimit`.  `remaining` is an `Int`
because the JS expression `maxRequests - 1` / `maxRequests - count` is
signed. -/
structure RateLimitResult where
  allowed : Bool
  remaining : Int
  resetAt : Nat
  resetIn : Nat
deriving DecidableEq, Repr

/-- `Math.ceil(ms / 1000)` for non-negative inputs. -/
def ceilSeconds (ms : Nat) : Nat := (ms + 999) / 1000

/-- The body of `cleanupExpiredRecords`' sweep: delete every record whose
`resetAt` is strictly before `now`. -/
def sweepMap (now : Nat) (m : RLMap) : RLMap :=
  fun k =>
    match m k with
    | none => none
    | some r => if r.resetAt < now then none else some r

/-- `cleanupExpiredRecords()`: runs the sweep only when at least
`CLEANUP_INTERVAL` has elapsed since `lastCleanup` (JS `now - lastCleanup <
CLEANUP_INTERVAL` agrees with the truncated `Nat` subtraction: when the
clock reads earlier than `lastCleanup` both give no sweep). -/
def cleanupExpiredRecords (now : Nat) (s : RLState) : RLState :=
  if now - s.lastCleanup < CLEANUP_INTERVAL then s
  else ⟨sweepMap now s.map, now⟩

/-- Whether a call at `now` triggers the sweep (used to log sweep times). -/
def sweepFires (now : Nat) (s : RLState) : Bool :=
  !(now - s.lastCleanup < CLEANUP_INTERVAL)

/-- `checkRateLimit(identifier, maxRequests, windowMs)` at clock `now`:
read the record, run the periodic cleanup, then take the
fresh / limit-exceeded / increment branch. -/
def checkRateLimit (identifier : String) (maxRequests windowMs : Nat)
    (now : Nat) (s : RLState) : RateLimitResult × RLState :=
  let record := s.map identifier
  let s1 := cleanupExpiredRecords now s
  match record with
  | none =>
      let resetAt := now + windowMs
      (⟨true, (maxRequests : Int) - 1, resetAt, ceilSeconds windowMs⟩,
        ⟨rlSet s1.map identifier ⟨1, resetAt⟩, s1.lastCleanup⟩)
  | some r =>
      if r.resetAt < now then
        let resetAt := now + windowMs
        (⟨true, (maxRequests : Int) - 1, resetAt, ceilSeconds windowMs⟩,
          ⟨rlSet s1.map identifier ⟨1, resetAt⟩, s1.lastCleanup⟩)
      else if maxRequests ≤ r.count then
        (⟨false, 0, r.resetAt, ceilSeconds (r.resetAt - now)⟩, s1)
      else
        (⟨true, (maxRequests : Int) - (r.count + 1), r.resetAt,
            ceilSeconds (r.resetAt - now)⟩,
          ⟨rlSet s1.map identifier ⟨r.count + 1, r.resetAt⟩, s1.lastCleanup⟩)

/-- Variant of `checkRateLimit` with the periodic sweep disabled, the
comparison point for the claim that eviction never affects admission
results.  Identical to `checkRateLimit` except that
`cleanupExpiredRecords` is skipped. -/
def checkRateLimitNoSweep (identifier : String) (maxRequests windowMs : Nat)
    (now : Nat) (s : RLState) : RateLimitResult × RLState :=
  let record := s.map identifier
  match record with
  | none =>
      let resetAt := now + windowMs
      (⟨true, (maxRequests : Int) - 1, resetAt, ceilSeconds windowMs⟩,
        ⟨rlSet s.map identifier ⟨1, resetAt⟩, s.lastCleanup⟩)
  | some r =>
      if r.resetAt < now then
        let resetAt := now + windowMs
        (⟨true, (maxRequests : Int) - 1, resetAt, ceilSeconds windowMs⟩,
          ⟨rlSet s.map identifier ⟨1, resetAt⟩, s.lastCleanup⟩)
      else if maxRequests ≤ r.count then
        (⟨false, 0, r.resetAt, ceilSeconds (r.resetAt - now)⟩, s)
      else
        (⟨true, (maxRequests : Int) - (r.count + 1), r.resetAt,
            ceilSeconds (r.resetAt - now)⟩,
          ⟨rlSet s.map identifier ⟨r.count + 1, r.resetAt⟩, s.lastCleanup⟩)

/-- One call of a trace: identifier, policy and clock reading. -/
structure RLCall where
  id : String
  maxRequests : Nat
  windowMs : Nat
  now : Nat

/-- Run a list of calls through `checkRateLimit`, collecting the results
and the times at which the periodic sweep fired. -/
def runCallsSweep : List RLCall → RLState →
    List RateLimitResult × List Nat × RLState
  | [], s => ([], [], s)
  | c :: cs, s =>
      let p := checkRateLimit c.id c.maxRequests c.windowMs c.now s
      let rest := runCallsSweep cs p.2
      (p.1 :: rest.1, (if sweepFires c.now s then [c.now] else []) ++ rest.2.1,
        rest.2.2)

/-- Run a list of calls through the sweep-disabled variant. -/
def runCallsNoSweep : List RLCall → RLState → List RateLimitResult × RLState
  | [], s => ([], s)
  | c :: cs, s =>
      let p := checkRateLimitNoSweep c.id c.maxRequests c.windowMs c.now s
      let rest := runCallsNoSweep cs p.2
      (p.1 :: rest.1, rest.2)

/-- View of a bucket as the admission logic sees it at clock `now`: an
expired record is indistinguishable from an absent one. -/
def liveView (now : Nat) : Option RateLimitRecord → Option RateLimitRecord
  | none => none
  | some r => if r.resetAt < now then none else some r

/-- Two maps that agree on every live bucket at clock `now`. -/
def liveEquiv (now : Nat) (m1 m2 : RLMap) : Prop :=
  ∀ k, liveView now (m1 k) = liveView now (m2 k)

/-! ## JSON values and `JSON.parse`

The generation route parses the model output with `JSON.parse`, with one
fallback that strips a markdown code fence.  JSON numbers are kept exactly
as a decimal mantissa/exponent pair (no floating point); strings are
decoded per the JSON escape rules. -/

inductive Json where
  | null : Json
  | bool (b : Bool) : Json
  | num (mant : Int) (exp10 : Int) : Json
  | str (s : String) : Json
  | arr (elems : List Json) : Json
  | obj (fields : List (String × Json)) : Json

/-- JSON grammar whitespace (strictly smaller than the JS regex class
`\s`): space, tab, line feed, carriage return. -/
def isJsonWs (c : Char) : Bool :=
  c.toNat = 0x20 || c.toNat = 0x09 || c.toNat = 0x0A || c.toNat = 0x0D

def skipJWs (l : List Char) : List Char := l.dropWhile isJsonWs

def trimJsonWs (l : List Char) : List Char :=
  dropTrailing isJsonWs (l.dropWhile isJsonWs)

def isDigitChar (c : Char) : Bool := 0x30 ≤ c.toNat && c.toNat ≤ 0x39

def digitsToNat (l : List Char) : Nat :=
  l.foldl (fun a c => a * 10 + (c.toNat - 0x30)) 0

def hexVal (c : Char) : Option Nat :=
  if 0x30 ≤ c.toNat && c.toNat ≤ 0x39 then some (c.toNat - 0x30)
  else if 0x41 ≤ c.toNat && c.toNat ≤ 0x46 then some (c.toNat - 0x41 + 10)
  else if 0x61 ≤ c.toNat && c.toNat ≤ 0x66 then some (c.toNat - 0x61 + 10)
  else none

/-- Single-character JSON string escapes. -/
def escChar (c : Char) : Option Char :=
  if c = Char.ofNat 0x22 then some (Char.ofNat 0x22)
  else if c = Char.ofNat 0x5C then some (Char.ofNat 0x5C)
  else if c = Char.ofNat 0x2F then some (Char.ofNat 0x2F)
  else if c = 'b' then some (Char.ofNat 0x08)
  else if c = 'f' then some (Char.ofNat 0x0C)
  else if c = 'n' then some (Char.ofNat 0x0A)
  else if c = 'r' then some (Char.ofNat 0x0D)
  else if c = 't' then some (Char.ofNat 0x09)
  else none

/-- Body of a JSON string after the opening quote: decoded content plus
the remainder after the closing quote. -/
def parseStringBody : Nat → List Char → Option (List Char × List Char)
  | 0, _ => none
  | _ + 1, [] => none
  | fuel + 1, c :: rest =>
      if c = Char.ofNat 0x22 then some ([], rest)
      else if c = Char.ofNat 0x5C then
        match rest with
        | [] => none
        | e :: rest2 =>
            if e = 'u' then
              match rest2 with
              | h1 :: h2 :: h3 :: h4 :: rest3 =>
                  match hexVal h1, hexVal h2, hexVal h3, hexVal h4 with
                  | some v1, some v2, some v3, some v4 =>
                      (parseStringBody fuel rest3).map
                        (fun p =>
                          (Char.ofNat (((v1 * 16 + v2) * 16 + v3) * 16 + v4)
                              :: p.1, p.2))
                  | _, _, _, _ => none
              | _ => none
            else
              match escChar e with
              | some d =>
                  (parseStringBody fuel rest2).map (fun p => (d :: p.1, p.2))
              | none => none
      else if c.toNat < 0x20 then none
      else (parseStringBody fuel rest).map (fun p => (c :: p.1, p.2))

def applySign (neg : Bool) (n : Nat) : Int :=
  if neg then -(n : Int) else (n : Int)

/-- Digits of the exponent (after the marker and optional sign). -/
def parseDigitsTail (mant : Int) (fracLen : Nat) (esign : Bool)
    (l1 : List Char) : Option ((Int × Int) × List Char) :=
  if (l1.takeWhile isDigitChar).isEmpty then none
  else
    some ((mant,
      applySign esign (digitsToNat (l1.takeWhile isDigitChar)) -
        (fracLen : Int)), l1.dropWhile isDigitChar)

/-- Exponent part after the `e`/`E` marker. -/
def parseExpTail (mant : Int) (fracLen : Nat) (l : List Char) :
    Option ((Int × Int) × List Char) :=
  match l with
  | c :: rest =>
      if c = '+' then parseDigitsTail mant fracLen false rest
      else if c = '-' then parseDigitsTail mant fracLen true rest
      else parseDigitsTail mant fracLen false l
  | [] => parseDigitsTail mant fracLen false []

/-- Fraction digits and optional exponent after the decimal point. -/
def parseFracRest (neg : Bool) (intDs : List Char) (rest : List Char) :
    Option ((Int × Int) × List Char) :=
  if (rest.takeWhile isDigitChar).isEmpty then none
  else
    match rest.dropWhile isDigitChar with
    | e :: r3 =>
        if e = 'e' ∨ e = 'E' then
          parseExpTail
            (applySign neg (digitsToNat (intDs ++ rest.takeWhile isDigitChar)))
            (rest.takeWhile isDigitChar).length r3
        else
          some ((applySign neg
              (digitsToNat (intDs ++ rest.takeWhile isDigitChar)),
            -((rest.takeWhile isDigitChar).length : Int)), e :: r3)
    | [] =>
        some ((applySign neg
            (digitsToNat (intDs ++ rest.takeWhile isDigitChar)),
          -((rest.takeWhile isDigitChar).length : Int)), [])

/-- Fraction and exponent parts after the integer digits. -/
def parseNumAfterInt (neg : Bool) (intDs : List Char) (l : List Char) :
    Option ((Int × Int) × List Char) :=
  match l with
  | c :: rest =>
      if c = '.' then parseFracRest neg intDs rest
      else if c = 'e' ∨ c = 'E' then
        parseExpTail (applySign neg (digitsToNat intDs)) 0 rest
      else some ((applySign neg (digitsToNat intDs), 0), l)
  | [] => some ((applySign neg (digitsToNat intDs), 0), [])

/-- JSON number after the optional minus sign: nonempty integer digits
with no leading zero (unless exactly `0`), then fraction/exponent. -/
def parseNum (neg : Bool) (l : List Char) :
    Option ((Int × Int) × List Char) :=
  if (l.takeWhile isDigitChar).isEmpty then none
  else if 1 < (l.takeWhile isDigitChar).length ∧
      (l.takeWhile isDigitChar).head? = some (Char.ofNat 0x30) then none
  else parseNumAfterInt neg (l.takeWhile isDigitChar) (l.dropWhile isDigitChar)

mutual

/-- JSON value (fuel-indexed recursive descent; the callers supply fuel
`2·length+2` which dominates the recursion depth). -/
def parseVal : Nat → List Char → Option (Json × List Char)
  | 0, _ => none
  | _ + 1, [] => none
  | fuel + 1, c :: rest =>
      if c = Char.ofNat 0x22 then
        (parseStringBody fuel rest).map
          (fun p => (Json.str (String.mk p.1), p.2))
      else if c = Char.ofNat 0x7B then
        match skipJWs rest with
        | c2 :: r2 =>
            if c2 = Char.ofNat 0x7D then some (Json.obj [], r2)
            else
              (parseMembers fuel (skipJWs rest)).map
                (fun p => (Json.obj p.1, p.2))
        | [] => none
      else if c = Char.ofNat 0x5B then
        match skipJWs rest with
        | c2 :: r2 =>
            if c2 = Char.ofNat 0x5D then some (Json.arr [], r2)
            else
              (parseElems fuel (skipJWs rest)).map
                (fun p => (Json.arr p.1, p.2))
        | [] => none
      else if c = 'n' then
        match rest with
        | 'u' :: 'l' :: 'l' :: r2 => some (Json.null, r2)
        | _ => none
      else if c = 't' then
        match rest with
        | 'r' :: 'u' :: 'e' :: r2 => some (Json.bool true, r2)
        | _ => none
      else if c = 'f' then
        match rest with
        | 'a' :: 'l' :: 's' :: 'e' :: r2 => some (Json.bool false, r2)
        | _ => none
      else if c = '-' then
        (parseNum true rest).map (fun p => (Json.num p.1.1 p.1.2, p.2))
      else if isDigitChar c then
        (parseNum false (c :: rest)).map
          (fun p => (Json.num p.1.1 p.1.2, p.2))
      else none

/-- Array elements (positioned at the first element, which must exist). -/
def parseElems : Nat → List Char → Option (List Json × List Char)
  | 0, _ => none
  | fuel + 1, l =>
      match parseVal fuel l with
      | none => none
      | some (v, r0) =>
          match skipJWs r0 with
          | c :: r1 =>
              if c = Char.ofNat 0x5D then some ([v], r1)
              else if c = ',' then
                match parseElems fuel (skipJWs r1) with
                | some (vs, r2) => some (v :: vs, r2)
                | none => none
              else none
          | [] => none

/-- Object members (positioned at the first key, which must exist). -/
def parseMembers : Nat → List Char →
    Option (List (String × Json) × List Char)
  | 0, _ => none
  | fuel + 1, l =>
      match l with
      | c :: r0 =>
          if c = Char.ofNat 0x22 then
            match parseStringBody fuel r0 with
            | some (k, r1) =>
                match skipJWs r1 with
                | c2 :: r2 =>
                    if c2 = ':' then
                      match parseVal fuel (skipJWs r2) with
                      | some (v, r3) =>
                          match skipJWs r3 with
                          | c3 :: r4 =>
                              if c3 = Char.ofNat 0x7D then
                                some ([(String.mk k, v)], r4)
                              else if c3 = ',' then
                                match parseMembers fuel (skipJWs r4) with
                                | some (ms, r5) =>
                                    some ((String.mk k, v) :: ms, r5)
                                | none => none
                              else none
                          | [] => none
                      | none => none
                    else none
                | [] => none
            | none => none
          else none
      | [] => none

end

/-- Model of `JSON.parse` on a character list: surrounding JSON
whitespace, one value, nothing else. -/
def jsonParse (l : List Char) : Option Json :=
  let u := trimJsonWs l
  match parseVal (2 * u.length + 2) u with
  | some (v, rest) => if rest.isEmpty then some v else none
  | none => none

/-! ## Response recovery (api.plans.generate.ts, lines 176–212) -/

/-- The regex replace `^```(?:json)?\s*\n?` → `""` (applied once,
anchored at the start). -/
def stripOpenFence (s : List Char) : List Char :=
  match s with
  | c1 :: c2 :: c3 :: r =>
      if c1 = Char.ofNat 0x60 ∧ c2 = Char.ofNat 0x60 ∧ c3 = Char.ofNat 0x60
      then
        let r2 :=
          match r with
          | 'j' :: 's' :: 'o' :: 'n' :: r3 => r3
          | _ => r
        r2.dropWhile isJsWs
      else s
  | _ => s

/-- The regex replace `\n?```\s*$` → `""` (leftmost match, which is the
final backtick run). -/
def stripCloseFence (s : List Char) : List Char :=
  match (s.reverse).dropWhile isJsWs with
  | b1 :: b2 :: b3 :: r2 =>
      if b1 = Char.ofNat 0x60 ∧ b2 = Char.ofNat 0x60 ∧ b3 = Char.ofNat 0x60
      then
        match r2 with
        | c :: r3 => if c = Char.ofNat 0x0A then r3.reverse else r2.reverse
        | [] => []
      else s
  | _ => s

/-- `aiResponse.trim().replace(opening).replace(closing).trim()`. -/
def cleanedResponse (s : List Char) : List Char :=
  jsTrim (stripCloseFence (stripOpenFence (jsTrim s)))

/-- Parse failure carrying the raw model text (logged for diagnostics,
then rethrown as the JSON-parse error). -/
structure ParseFailure where
  raw : List Char

/-- The two-attempt recovery: direct `JSON.parse`, else strip the
markdown fence and parse again, else fail with a parse error holding the
raw text. -/
def recoverJson (s : List Char) : Except ParseFailure Json :=
  match jsonParse s with
  | some v => Except.ok v
  | none =>
      match jsonParse (cleanedResponse s) with
      | some v => Except.ok v
      | none => Except.error ⟨s⟩

/-- The markdown wrapper the claim quantifies over. -/
def fenceWrap (t : List Char) : List Char :=
  "```json\n".data ++ t ++ "\n```".data

/-! ## Plan model and normalization (api.plans.generate.ts lines 226-237)

Numbers reaching the normalization step come out of `JSON.parse`, so a
schema `z.number()` field is modelled by the parser's exact decimal
representation: a mantissa/exponent pair of integers. -/

inductive TaskStatus where
  | not_started
  | in_progress
  | completed
deriving DecidableEq, Repr

structure PlanTask where
  id : Int × Int
  title : List Char
  status : TaskStatus
  serial : Int × Int
deriving DecidableEq, Repr

structure PlanPhase where
  name : List Char
  tasks : List PlanTask
  serial : Int × Int
deriving DecidableEq, Repr

structure ProjectPlan where
  goal : List Char
  phases : List PlanPhase
deriving DecidableEq, Repr

/-- The decimal representation of the natural serial `k` written by the
normalization step. -/
def natSerial (k : Nat) : Int × Int := (Int.ofNat k, 0)

/-- `.map` with the element index, starting from `i`: the shape of the two
`Array.prototype.map((x, index) => ...)` calls in the route. -/
def mapIdxFrom (f : Nat → α → β) : Nat → List α → List β
  | _, [] => []
  | i, a :: as => f i a :: mapIdxFrom f (i + 1) as

/-- `{ ...task, serial: taskIndex + 1, status: "not_started" }`. -/
def normalizeTask (i : Nat) (t : PlanTask) : PlanTask :=
  { t with serial := natSerial (i + 1), status := TaskStatus.not_started }

/-- `{ ...phase, serial: phaseIndex + 1, tasks: phase.tasks.slice(0,
MAX_TASKS_PER_PHASE).map(...) }`. -/
def normalizePhase (i : Nat) (ph : PlanPhase) : PlanPhase :=
  { ph with
      serial := natSerial (i + 1),
      tasks := mapIdxFrom normalizeTask 0 (ph.tasks.take MAX_TASKS_PER_PHASE) }

/-- `plan.phases = plan.phases.slice(0, MAX_PHASES).map(...)`. -/
def normalizePlan (p : ProjectPlan) : ProjectPlan :=
  { p with phases := mapIdxFrom normalizePhase 0 (p.phases.take MAX_PHASES) }

/-! ## Zod validation model (schema.ts, config.ts)

A zod issue is classified in the route only through `issue.path[0]`, so the
model keeps exactly the path of each issue.  Paths mix object keys and
array indices. -/

inductive PathElem where
  | key (k : String)
  | idx (i : Nat)
deriving DecidableEq, Repr

structure Issue where
  path : List PathElem
deriving DecidableEq, Repr

def prefixIssue (pe : PathElem) (i : Issue) : Issue := ⟨pe :: i.path⟩

def errsOf : Except Issue α → List Issue
  | .error i => [i]
  | .ok _ => []

def errListOf : Except (List Issue) α → List Issue
  | .error l => l
  | .ok _ => []

/-- Object field lookup; `JSON.parse` keeps the last duplicate key. -/
def lookupField (fields : List (String × Json)) (k : String) : Option Json :=
  match fields.reverse.find? (fun p => p.1 == k) with
  | some p => some p.2
  | none => none

inductive ExperienceLevel where
  | beginner
  | intermediate
  | advanced
deriving DecidableEq, Repr

inductive TimeAvailability where
  | h3to5
  | h5to10
  | h10plus
deriving DecidableEq, Repr

structure GenPayload where
  projectGoal : List Char
  experienceLevel : ExperienceLevel
  timeAvailability : TimeAvailability
  deadline : Option (List Char)
  regenerate : Option Bool
deriving DecidableEq, Repr

/-- `projectGoal: z.string().trim().min(1)`: the trim transform runs before
the length check and the trimmed value is the parsed output. -/
def parseGoalField : Option Json → Except Issue (List Char)
  | some (Json.str s) =>
      if (jsTrim s.data).isEmpty then .error ⟨[PathElem.key "projectGoal"]⟩
      else .ok (jsTrim s.data)
  | _ => .error ⟨[PathElem.key "projectGoal"]⟩

def parseExpField : Option Json → Except Issue ExperienceLevel
  | some (Json.str s) =>
      if s == "beginner" then .ok .beginner
      else if s == "intermediate" then .ok .intermediate
      else if s == "advanced" then .ok .advanced
      else .error ⟨[PathElem.key "experienceLevel"]⟩
  | _ => .error ⟨[PathElem.key "experienceLevel"]⟩

def parseTimeField : Option Json → Except Issue TimeAvailability
  | some (Json.str s) =>
      if s == "3-5" then .ok .h3to5
      else if s == "5-10" then .ok .h5to10
      else if s == "10+" then .ok .h10plus
      else .error ⟨[PathElem.key "timeAvailability"]⟩
  | _ => .error ⟨[PathElem.key "timeAvailability"]⟩

/-- `deadline: z.string().optional()`: absent is fine, a present
non-string (including null) is a type issue. -/
def parseDeadlineField : Option Json → Except Issue (Option (List Char))
  | none => .ok none
  | some (Json.str s) => .ok (some s.data)
  | some _ => .error ⟨[PathElem.key "deadline"]⟩

/-- `regenerate: z.boolean().optional()`. -/
def parseRegenField : Option Json → Except Issue (Option Bool)
  | none => .ok none
  | some (Json.bool b) => .ok (some b)
  | some _ => .error ⟨[PathElem.key "regenerate"]⟩

/-- `generatePlanPayloadSchema.parse`: on an object, field issues are
collected in shape order; on a non-object the single issue has path []. -/
def validatePayload (j : Json) : Except (List Issue) GenPayload :=
  match j with
  | Json.obj fields =>
      match parseGoalField (lookupField fields "projectGoal"),
            parseExpField (lookupField fields "experienceLevel"),
            parseTimeField (lookupField fields "timeAvailability"),
            parseDeadlineField (lookupField fields "deadline"),
            parseRegenField (lookupField fields "regenerate") with
      | .ok g, .ok e, .ok t, .ok d, .ok r => .ok ⟨g, e, t, d, r⟩
      | g, e, t, d, r =>
          .error (errsOf g ++ errsOf e ++ errsOf t ++ errsOf d ++ errsOf r)
  | _ => .error [⟨[]⟩]

def parseStrField (k : String) : Option Json → Except Issue (List Char)
  | some (Json.str s) => .ok s.data
  | _ => .error ⟨[PathElem.key k]⟩

def parseNumField (k : String) : Option Json → Except Issue (Int × Int)
  | some (Json.num m e) => .ok (m, e)
  | _ => .error ⟨[PathElem.key k]⟩

def parseStatusField : Option Json → Except Issue TaskStatus
  | some (Json.str s) =>
      if s == "not_started" then .ok .not_started
      else if s == "in_progress" then .ok .in_progress
      else if s == "completed" then .ok .completed
      else .error ⟨[PathElem.key "status"]⟩
  | _ => .error ⟨[PathElem.key "status"]⟩

def validateTask (j : Json) : Except (List Issue) PlanTask :=
  match j with
  | Json.obj fields =>
      match parseNumField "id" (lookupField fields "id"),
            parseStrField "title" (lookupField fields "title"),
            parseStatusField (lookupField fields "status"),
            parseNumField "serial" (lookupField fields "serial") with
      | .ok i, .ok t, .ok st, .ok se => .ok ⟨i, t, st, se⟩
      | i, t, st, se =>
          .error (errsOf i ++ errsOf t ++ errsOf st ++ errsOf se)
  | _ => .error [⟨[]⟩]

/-- `z.array(taskSchema)` elements: each element's issues are prefixed
with its index. -/
def validateTaskList : Nat → List Json → Except (List Issue) (List PlanTask)
  | _, [] => .ok []
  | i, j :: js =>
      match validateTask j, validateTaskList (i + 1) js with
      | .ok t, .ok ts => .ok (t :: ts)
      | a, b =>
          .error ((errListOf a).map (prefixIssue (PathElem.idx i)) ++
            errListOf b)

def validatePhase (j : Json) : Except (List Issue) PlanPhase :=
  match j with
  | Json.obj fields =>
      match parseStrField "name" (lookupField fields "name"),
            (match lookupField fields "tasks" with
             | some (Json.arr es) =>
                 (validateTaskList 0 es).mapError
                   (fun l : List Issue => l.map (prefixIssue (PathElem.key "tasks")))
             | _ => .error [Issue.mk [PathElem.key "tasks"]]),
            parseNumField "serial" (lookupField fields "serial") with
      | .ok n, .ok ts, .ok se => .ok ⟨n, ts, se⟩
      | n, ts, se => .error (errsOf n ++ errListOf ts ++ errsOf se)
  | _ => .error [⟨[]⟩]

def validatePhaseList : Nat → List Json → Except (List Issue) (List PlanPhase)
  | _, [] => .ok []
  | i, j :: js =>
      match validatePhase j, validatePhaseList (i + 1) js with
      | .ok p, .ok ps => .ok (p :: ps)
      | a, b =>
          .error ((errListOf a).map (prefixIssue (PathElem.idx i)) ++
            errListOf b)

/-- `projectPlanSchema.parse`. -/
def validatePlanJson (j : Json) : Except (List Issue) ProjectPlan :=
  match j with
  | Json.obj fields =>
      match parseStrField "goal" (lookupField fields "goal"),
            (match lookupField fields "phases" with
             | some (Json.arr es) =>
                 (validatePhaseList 0 es).mapError
                   (fun l : List Issue => l.map (prefixIssue (PathElem.key "phases")))
             | _ => .error [Issue.mk [PathElem.key "phases"]]) with
      | .ok g, .ok ps => .ok ⟨g, ps⟩
      | g, ps => .error (errsOf g ++ errListOf ps)
  | _ => .error [⟨[]⟩]

/-- `requestSchema.parse` of the explain route:
`z.object(\x7b query: generatePlanPayloadSchema, plan: projectPlanSchema \x7d)`. -/
def validateExplainJson (j : Json) :
    Except (List Issue) (GenPayload × ProjectPlan) :=
  match j with
  | Json.obj fields =>
      match (match lookupField fields "query" with
             | some q =>
                 (validatePayload q).mapError
                   (fun l : List Issue => l.map (prefixIssue (PathElem.key "query")))
             | none => .error [Issue.mk [PathElem.key "query"]]),
            (match lookupField fields "plan" with
             | some p =>
                 (validatePlanJson p).mapError
                   (fun l : List Issue => l.map (prefixIssue (PathElem.key "plan")))
             | none => .error [Issue.mk [PathElem.key "plan"]]) with
      | .ok q, .ok p => .ok (q, p)
      | q, p => .error (errListOf q ++ errListOf p)
  | _ => .error [⟨[]⟩]

/-- The classification test in the generate route's catch block:
`issue.path[0] === "projectGoal" || ... === "timeAvailability" ||
... === "deadline"`. -/
def isInputIssue (i : Issue) : Bool :=
  match i.path with
  | PathElem.key k :: _ =>
      k == "projectGoal" || k == "experienceLevel" ||
        k == "timeAvailability" || k == "deadline"
  | _ => false

/-! ## Config and endpoint actions -/

/-- The two environment variables `envSchema` reads from `process.env`. -/
structure EnvMap where
  apiKey : Option (List Char)
  model : Option (List Char)
deriving DecidableEq, Repr

def allowedModels : List (List Char) :=
  ["gpt-3.5-turbo".data, "gpt-4".data, "gpt-4o".data, "gpt-4o-mini".data]

/-- `getConfig` succeeds iff `OPENAI_API_KEY` is set and `OPENAI_MODEL` is
one of the four allowed names; otherwise it throws (modelled as none). -/
def getConfig (e : EnvMap) : Option (List Char × List Char) :=
  match e.apiKey, e.model with
  | some k, some m => if m ∈ allowedModels then some (k, m) else none
  | _, _ => none

/-- What the action reads from the incoming request: its method, the
client identifier derived from its headers, and the result of
`request.json()` (none when the body is not valid JSON and the call
throws a SyntaxError). -/
structure GenRequest where
  method : List Char
  clientId : String
  body : Option Json

/-- Oracle for the OpenAI call: the response text, or a thrown error that
carries a `status` property or not. -/
inductive AiOutcome where
  | ok (text : List Char)
  | err (status : Option Nat)

inductive RespBody where
  | rateLimited (resetIn : Nat)
  | methodNotAllowed
  | inputInvalid (errors : List Issue)
  | aiContractInvalid (errors : List Issue)
  | openAiFailure (status : Option Nat)
  | genericFailure
  | planOk (p : ProjectPlan)
  | explainInvalid (errors : List Issue)
  | explainFailure
  | streamOk

structure HttpResponse where
  status : Nat
  body : RespBody

/-- Every body except the two success payloads is a structured
`success:false` JSON failure body. -/
def isFailureBody : RespBody → Bool
  | .planOk _ => false
  | .streamOk => false
  | _ => true

def statusOf : Except Unit (HttpResponse × RLState) → Option Nat
  | .ok (r, _) => some r.status
  | .error _ => none

/-- The action of api.plans.generate.ts: rate limit first, then the
method check, then `getConfig()` outside the try block (a throw there
escapes the handler: `.error ()`), then the guarded pipeline whose catch
block classifies ZodErrors by `issue.path[0]`, maps errors carrying a
`status` property to 429/500, and everything else to a generic 500. -/
def generateAction (env : EnvMap) (req : GenRequest) (ai : AiOutcome)
    (now : Nat) (s : RLState) : Except Unit (HttpResponse × RLState) :=
  match checkRateLimit req.clientId RATE_LIMIT_GENERATE_MAX
      RATE_LIMIT_GENERATE_WINDOW_MS now s with
  | (rl, s1) =>
      if rl.allowed = false then
        .ok (⟨429, .rateLimited rl.resetIn⟩, s1)
      else if req.method ≠ "POST".data then
        .ok (⟨405, .methodNotAllowed⟩, s1)
      else
        match getConfig env with
        | none => .error ()
        | some _ =>
            match req.body with
            | none => .ok (⟨500, .genericFailure⟩, s1)
            | some j =>
                match validatePayload j with
                | .error issues =>
                    if issues.any isInputIssue then
                      .ok (⟨400, .inputInvalid issues⟩, s1)
                    else
                      .ok (⟨500, .aiContractInvalid issues⟩, s1)
                | .ok _ =>
                    match ai with
                    | .err (some code) =>
                        .ok (⟨if code = 429 then 429 else 500,
                          .openAiFailure (some code)⟩, s1)
                    | .err none => .ok (⟨500, .genericFailure⟩, s1)
                    | .ok text =>
                        if text.isEmpty then
                          .ok (⟨500, .genericFailure⟩, s1)
                        else
                          match recoverJson text with
                          | .error _ => .ok (⟨500, .genericFailure⟩, s1)
                          | .ok parsed =>
                              match validatePlanJson parsed with
                              | .error issues =>
                                  if issues.any isInputIssue then
                                    .ok (⟨400, .inputInvalid issues⟩, s1)
                                  else
                                    .ok (⟨500, .aiContractInvalid issues⟩, s1)
                              | .ok plan =>
                                  .ok (⟨200, .planOk (normalizePlan plan)⟩,
                                    s1)

/-- The action of the explain route (part_005): same rate-limit, method
and `getConfig` prefix, then the guarded pipeline whose catch block sends
every ZodError to 400 and everything else to 500; success streams 200. -/
def explainAction (env : EnvMap) (req : GenRequest) (ai : AiOutcome)
    (now : Nat) (s : RLState) : Except Unit (HttpResponse × RLState) :=
  match checkRateLimit req.clientId RATE_LIMIT_EXPLAIN_MAX
      RATE_LIMIT_EXPLAIN_WINDOW_MS now s with
  | (rl, s1) =>
      if rl.allowed = false then
        .ok (⟨429, .rateLimited rl.resetIn⟩, s1)
      else if req.method ≠ "POST".data then
        .ok (⟨405, .methodNotAllowed⟩, s1)
      else
        match getConfig env with
        | none => .error ()
        | some _ =>
            match req.body with
            | none => .ok (⟨500, .explainFailure⟩, s1)
            | some j =>
                match validateExplainJson j with
                | .error issues => .ok (⟨400, .explainInvalid issues⟩, s1)
                | .ok _ =>
                    match ai with
                    | .err _ => .ok (⟨500, .explainFailure⟩, s1)
                    | .ok _ => .ok (⟨200, .streamOk⟩, s1)

def allowedStatus (n : Nat) : Bool :=
  n == 200 || n == 400 || n == 405 || n == 429 || n == 500

/-- The spec's totality shape for C8, stated in the spec's words: the
handler returns (no escaping exception), the status is one of the five
documented codes, and every non-200 response has a structured
`success:false` body. -/
def specStructuredResponse (r : Except Unit (HttpResponse × RLState)) :
    Bool :=
  match r with
  | .error _ => false
  | .ok (resp, _) =>
      allowedStatus resp.status &&
        (resp.status == 200 || isFailureBody resp.body)

/-- A well-formed environment for concrete runs. -/
def envOk : EnvMap := ⟨some "k".data, some "gpt-4o-mini".data⟩

/-! ## Rate limiter lemmas -/

theorem cleanup_lookup_none {s : RLState} {k : String} (now : Nat)
    (h : s.map k = none) : (cleanupExpiredRecords now s).map k = none := by
  unfold cleanupExpiredRecords
  split
  · exact h
  · simp [sweepMap, h]

theorem cleanup_lookup_live {s : RLState} {k : String} {r : RateLimitRecord}
    (now : Nat) (h : s.map k = some r) (hlive : ¬ r.resetAt < now) :
    (cleanupExpiredRecords now s).map k = some r := by
  unfold cleanupExpiredRecords
  split
  · exact h
  · simp [sweepMap, h, hlive]

theorem rlSet_same (m : RLMap) (k : String) (r : RateLimitRecord) :
    rlSet m k r k = some r := by
  simp [rlSet]

theorem rlSet_other (m : RLMap) {k k2 : String} (r : RateLimitRecord)
    (h : k2 ≠ k) : rlSet m k r k2 = m k2 := by
  simp [rlSet, h]

/-- Fresh-bucket branch of `checkRateLimit` when no record exists. -/
theorem checkRateLimit_fresh_none {s : RLState} {id : String}
    (maxR windowMs now : Nat) (h : s.map id = none) :
    (checkRateLimit id maxR windowMs now s).1 =
        ⟨true, (maxR : Int) - 1, now + windowMs, ceilSeconds windowMs⟩ ∧
      (checkRateLimit id maxR windowMs now s).2.map id =
        some ⟨1, now + windowMs⟩ := by
  simp [checkRateLimit, h, rlSet]

/-- Fresh-bucket branch of `checkRateLimit` when the record expired. -/
theorem checkRateLimit_fresh_expired {s : RLState} {id : String}
    {r : RateLimitRecord} (maxR windowMs now : Nat) (h : s.map id = some r)
    (hexp : r.resetAt < now) :
    (checkRateLimit id maxR windowMs now s).1 =
        ⟨true, (maxR : Int) - 1, now + windowMs, ceilSeconds windowMs⟩ ∧
      (checkRateLimit id maxR windowMs now s).2.map id =
        some ⟨1, now + windowMs⟩ := by
  simp [checkRateLimit, h, hexp, rlSet]

/-- Blocked branch of `checkRateLimit`: live record at the limit. -/
theorem checkRateLimit_blocked {s : RLState} {id : String}
    {r : RateLimitRecord} (maxR windowMs now : Nat) (h : s.map id = some r)
    (hlive : ¬ r.resetAt < now) (hcnt : maxR ≤ r.count) :
    (checkRateLimit id maxR windowMs now s).1 =
        ⟨false, 0, r.resetAt, ceilSeconds (r.resetAt - now)⟩ ∧
      (checkRateLimit id maxR windowMs now s).2.map id = some r := by
  refine ⟨by simp [checkRateLimit, h, hlive, hcnt], ?_⟩
  have h2 : (checkRateLimit id maxR windowMs now s).2 =
      cleanupExpiredRecords now s := by
    simp [checkRateLimit, h, hlive, hcnt]
  rw [h2]
  exact cleanup_lookup_live now h hlive

/-- Increment branch of `checkRateLimit`: live record under the limit. -/
theorem checkRateLimit_increment {s : RLState} {id : String}
    {r : RateLimitRecord} (maxR windowMs now : Nat) (h : s.map id = some r)
    (hlive : ¬ r.resetAt < now) (hcnt : ¬ maxR ≤ r.count) :
    (checkRateLimit id maxR windowMs now s).1 =
        ⟨true, (maxR : Int) - (r.count + 1), r.resetAt,
          ceilSeconds (r.resetAt - now)⟩ ∧
      (checkRateLimit id maxR windowMs now s).2.map id =
        some ⟨r.count + 1, r.resetAt⟩ := by
  simp [checkRateLimit, h, hlive, hcnt, rlSet]

/-- Claim C2: fixed-window admission.  For a fresh identifier with
`max = 5`, `windowMs = 60000`, the 1st–5th calls return `allowed = true`
with `remaining` equal to 4, 3, 2, 1, 0, each reporting `resetAt = t1 +
60000`; a 6th call within the window returns `allowed = false`,
`remaining = 0`, reports the existing window's `resetAt`, and leaves the
bucket's count at 5 (no increment); any call strictly after `resetAt`
gets a fresh window with `allowed = true` and `remaining = max - 1`. -/
theorem c2_fixed_window_admission
    (s0 : RLState) (id : String) (t1 t2 t3 t4 t5 t6 t7 : Nat)
    (hfresh : s0.map id = none)
    (h2 : t2 ≤ t1 + 60000) (h3 : t3 ≤ t1 + 60000) (h4 : t4 ≤ t1 + 60000)
    (h5 : t5 ≤ t1 + 60000) (h6 : t6 ≤ t1 + 60000) (h7 : t1 + 60000 < t7) :
    let p1 := checkRateLimit id 5 60000 t1 s0
    let p2 := checkRateLimit id 5 60000 t2 p1.2
    let p3 := checkRateLimit id 5 60000 t3 p2.2
    let p4 := checkRateLimit id 5 60000 t4 p3.2
    let p5 := checkRateLimit id 5 60000 t5 p4.2
    let p6 := checkRateLimit id 5 60000 t6 p5.2
    let p7 := checkRateLimit id 5 60000 t7 p6.2
    (p1.1.allowed = true ∧ p1.1.remaining = 4 ∧ p1.1.resetAt = t1 + 60000) ∧
    (p2.1.allowed = true ∧ p2.1.remaining = 3 ∧ p2.1.resetAt = t1 + 60000) ∧
    (p3.1.allowed = true ∧ p3.1.remaining = 2 ∧ p3.1.resetAt = t1 + 60000) ∧
    (p4.1.allowed = true ∧ p4.1.remaining = 1 ∧ p4.1.resetAt = t1 + 60000) ∧
    (p5.1.allowed = true ∧ p5.1.remaining = 0 ∧ p5.1.resetAt = t1 + 60000) ∧
    (p6.1.allowed = false ∧ p6.1.remaining = 0 ∧ p6.1.resetAt = t1 + 60000) ∧
    p6.2.map id = some ⟨5, t1 + 60000⟩ ∧
    (p7.1.allowed = true ∧ p7.1.remaining = 4 ∧
      p7.1.resetAt = t7 + 60000) := by
  intro p1 p2 p3 p4 p5 p6 p7
  have hl2 : ¬ (t1 + 60000 < t2) := by omega
  have hl3 : ¬ (t1 + 60000 < t3) := by omega
  have hl4 : ¬ (t1 + 60000 < t4) := by omega
  have hl5 : ¬ (t1 + 60000 < t5) := by omega
  have hl6 : ¬ (t1 + 60000 < t6) := by omega
  obtain ⟨e1, m1⟩ := checkRateLimit_fresh_none (s := s0) 5 60000 t1 hfresh
  obtain ⟨e2, m2⟩ := checkRateLimit_increment (r := ⟨1, t1 + 60000⟩)
    5 60000 t2 m1 hl2 (by show ¬ (5:Nat) ≤ 1; decide)
  obtain ⟨e3, m3⟩ := checkRateLimit_increment (r := ⟨2, t1 + 60000⟩)
    5 60000 t3 m2 hl3 (by show ¬ (5:Nat) ≤ 2; decide)
  obtain ⟨e4, m4⟩ := checkRateLimit_increment (r := ⟨3, t1 + 60000⟩)
    5 60000 t4 m3 hl4 (by show ¬ (5:Nat) ≤ 3; decide)
  obtain ⟨e5, m5⟩ := checkRateLimit_increment (r := ⟨4, t1 + 60000⟩)
    5 60000 t5 m4 hl5 (by show ¬ (5:Nat) ≤ 4; decide)
  obtain ⟨e6, m6⟩ := checkRateLimit_blocked (r := ⟨5, t1 + 60000⟩)
    5 60000 t6 m5 hl6 (by show (5:Nat) ≤ 5; decide)
  obtain ⟨e7, m7⟩ := checkRateLimit_fresh_expired (r := ⟨5, t1 + 60000⟩)
    5 60000 t7 m6 h7
  refine ⟨⟨?_, ?_, ?_⟩, ⟨?_, ?_, ?_⟩, ⟨?_, ?_, ?_⟩, ⟨?_, ?_, ?_⟩,
    ⟨?_, ?_, ?_⟩, ⟨?_, ?_, ?_⟩, m6, ⟨?_, ?_, ?_⟩⟩ <;>
    simp [p1, p2, p3, p4, p5, p6, p7, e1, e2, e3, e4, e5, e6, e7]

/-- Witness for C2 at a concrete fresh state and concrete clocks. -/
theorem c2_fixed_window_admission_witness :
    let s0 := rlInit 0
    let p1 := checkRateLimit "c" 5 60000 0 s0
    let p2 := checkRateLimit "c" 5 60000 10 p1.2
    let p3 := checkRateLimit "c" 5 60000 20 p2.2
    let p4 := checkRateLimit "c" 5 60000 30 p3.2
    let p5 := checkRateLimit "c" 5 60000 40 p4.2
    let p6 := checkRateLimit "c" 5 60000 50 p5.2
    let p7 := checkRateLimit "c" 5 60000 60001 p6.2
    (p1.1.allowed = true ∧ p1.1.remaining = 4 ∧ p1.1.resetAt = 0 + 60000) ∧
    (p2.1.allowed = true ∧ p2.1.remaining = 3 ∧ p2.1.resetAt = 0 + 60000) ∧
    (p3.1.allowed = true ∧ p3.1.remaining = 2 ∧ p3.1.resetAt = 0 + 60000) ∧
    (p4.1.allowed = true ∧ p4.1.remaining = 1 ∧ p4.1.resetAt = 0 + 60000) ∧
    (p5.1.allowed = true ∧ p5.1.remaining = 0 ∧ p5.1.resetAt = 0 + 60000) ∧
    (p6.1.allowed = false ∧ p6.1.remaining = 0 ∧ p6.1.resetAt = 0 + 60000) ∧
    p6.2.map "c" = some ⟨5, 0 + 60000⟩ ∧
    (p7.1.allowed = true ∧ p7.1.remaining = 4 ∧
      p7.1.resetAt = 60001 + 60000) :=
  c2_fixed_window_admission (rlInit 0) "c" 0 10 20 30 40 50 60001
    rfl (by omega) (by omega) (by omega) (by omega) (by omega) (by omega)

/-- Claim C1 is false of the code: the two endpoints' rate-limit checks
share the single module-level bucket map, keyed only by the client
identifier.  Starting from the empty state, one generation check
(policy 5 / 120000 ms) for client `1.2.3.4` at t = 1000 changes what the
same client's explanation check (policy 10 / 300000 ms) at t = 2000
returns: `remaining` drops from 9 to 8 and `resetAt` reports the
generation window `121000` instead of a fresh explanation window
`302000`. -/
theorem c1_generate_and_explain_share_one_bucket :
    (checkRateLimit "1.2.3.4" RATE_LIMIT_EXPLAIN_MAX
        RATE_LIMIT_EXPLAIN_WINDOW_MS 2000
        (checkRateLimit "1.2.3.4" RATE_LIMIT_GENERATE_MAX
          RATE_LIMIT_GENERATE_WINDOW_MS 1000 (rlInit 0)).2).1.remaining =
      8 ∧
    (checkRateLimit "1.2.3.4" RATE_LIMIT_EXPLAIN_MAX
        RATE_LIMIT_EXPLAIN_WINDOW_MS 2000
        (checkRateLimit "1.2.3.4" RATE_LIMIT_GENERATE_MAX
          RATE_LIMIT_GENERATE_WINDOW_MS 1000 (rlInit 0)).2).1.resetAt =
      121000 ∧
    (checkRateLimit "1.2.3.4" RATE_LIMIT_EXPLAIN_MAX
        RATE_LIMIT_EXPLAIN_WINDOW_MS 2000 (rlInit 0)).1.remaining = 9 ∧
    (checkRateLimit "1.2.3.4" RATE_LIMIT_EXPLAIN_MAX
        RATE_LIMIT_EXPLAIN_WINDOW_MS 2000 (rlInit 0)).1.resetAt =
      302000 := by
  decide


/-! ## Eviction-irrelevance lemmas -/

theorem liveView_none_iff (now : Nat) (x : Option RateLimitRecord) :
    liveView now x = none ↔
      x = none ∨ ∃ r, x = some r ∧ r.resetAt < now := by
  cases x with
  | none => simp [liveView]
  | some r =>
      by_cases hr : r.resetAt < now <;> simp [liveView, hr]

theorem liveView_some_iff (now : Nat) (x : Option RateLimitRecord)
    (r : RateLimitRecord) :
    liveView now x = some r ↔ x = some r ∧ ¬ r.resetAt < now := by
  cases x with
  | none => simp [liveView]
  | some r2 =>
      simp only [liveView]
      by_cases hr : r2.resetAt < now
      · rw [if_pos hr]
        constructor
        · intro h; cases h
        · rintro ⟨heq, hn⟩
          rw [Option.some_inj] at heq
          subst heq
          exact absurd hr hn
      · rw [if_neg hr]
        constructor
        · intro h
          rw [Option.some_inj] at h
          subst h
          exact ⟨rfl, hr⟩
        · rintro ⟨heq, hn⟩
          rw [Option.some_inj] at heq
          subst heq
          rfl

theorem liveEquiv_mono {t t2 : Nat} {m1 m2 : RLMap} (ht : t ≤ t2)
    (h : liveEquiv t m1 m2) : liveEquiv t2 m1 m2 := by
  intro k
  have hk := h k
  cases hv : liveView t (m1 k) with
  | none =>
      rw [hv] at hk
      have h1 := (liveView_none_iff t (m1 k)).1 hv
      have h2 := (liveView_none_iff t (m2 k)).1 hk.symm
      have g1 : liveView t2 (m1 k) = none := by
        rcases h1 with h1 | ⟨r, h1, hr⟩
        · simp [liveView, h1]
        · simp [liveView, h1, Nat.lt_of_lt_of_le hr ht]
      have g2 : liveView t2 (m2 k) = none := by
        rcases h2 with h2 | ⟨r, h2, hr⟩
        · simp [liveView, h2]
        · simp [liveView, h2, Nat.lt_of_lt_of_le hr ht]
      rw [g1, g2]
  | some r =>
      rw [hv] at hk
      obtain ⟨h1, hr1⟩ := (liveView_some_iff t (m1 k) r).1 hv
      obtain ⟨h2, hr2⟩ := (liveView_some_iff t (m2 k) r).1 hk.symm
      rw [h1, h2]

theorem liveView_sweepMap {now now2 : Nat} (m : RLMap) (k : String)
    (h : now ≤ now2) : liveView now2 (sweepMap now m k) = liveView now2 (m k) := by
  unfold sweepMap
  cases hm : m k with
  | none => rfl
  | some r =>
      by_cases hr : r.resetAt < now
      · simp only [if_pos hr]
        simp [liveView, Nat.lt_of_lt_of_le hr h]
      · simp only [if_neg hr]

theorem liveView_cleanup {now now2 : Nat} (s : RLState) (k : String)
    (h : now ≤ now2) :
    liveView now2 ((cleanupExpiredRecords now s).map k) =
      liveView now2 (s.map k) := by
  unfold cleanupExpiredRecords
  split
  · rfl
  · exact liveView_sweepMap s.map k h

theorem cleanup_lastCleanup (now : Nat) (s : RLState) :
    (cleanupExpiredRecords now s).lastCleanup =
      if now - s.lastCleanup < CLEANUP_INTERVAL then s.lastCleanup else now := by
  unfold cleanupExpiredRecords
  split <;> simp_all

/-- Branch characterization: fresh bucket (no live record). -/
theorem checkRateLimit_fresh_view {s : RLState} {id : String}
    (maxR windowMs now : Nat) (h : liveView now (s.map id) = none) :
    checkRateLimit id maxR windowMs now s =
      (⟨true, (maxR : Int) - 1, now + windowMs, ceilSeconds windowMs⟩,
        ⟨rlSet (cleanupExpiredRecords now s).map id ⟨1, now + windowMs⟩,
          (cleanupExpiredRecords now s).lastCleanup⟩) := by
  rcases (liveView_none_iff now (s.map id)).1 h with h1 | ⟨r, h1, hr⟩
  · simp [checkRateLimit, h1]
  · simp [checkRateLimit, h1, hr]

/-- Branch characterization: live record at the cap. -/
theorem checkRateLimit_blocked_view {s : RLState} {id : String}
    {r : RateLimitRecord} (maxR windowMs now : Nat)
    (h : liveView now (s.map id) = some r) (hcnt : maxR ≤ r.count) :
    checkRateLimit id maxR windowMs now s =
      (⟨false, 0, r.resetAt, ceilSeconds (r.resetAt - now)⟩,
        cleanupExpiredRecords now s) := by
  obtain ⟨h1, hr⟩ := (liveView_some_iff now (s.map id) r).1 h
  simp [checkRateLimit, h1, hr, hcnt]

/-- Branch characterization: live record under the cap. -/
theorem checkRateLimit_increment_view {s : RLState} {id : String}
    {r : RateLimitRecord} (maxR windowMs now : Nat)
    (h : liveView now (s.map id) = some r) (hcnt : ¬ maxR ≤ r.count) :
    checkRateLimit id maxR windowMs now s =
      (⟨true, (maxR : Int) - (r.count + 1), r.resetAt,
          ceilSeconds (r.resetAt - now)⟩,
        ⟨rlSet (cleanupExpiredRecords now s).map id ⟨r.count + 1, r.resetAt⟩,
          (cleanupExpiredRecords now s).lastCleanup⟩) := by
  obtain ⟨h1, hr⟩ := (liveView_some_iff now (s.map id) r).1 h
  simp [checkRateLimit, h1, hr, hcnt]

/-- Branch characterizations of the sweep-disabled variant. -/
theorem checkRateLimitNoSweep_fresh_view {s : RLState} {id : String}
    (maxR windowMs now : Nat) (h : liveView now (s.map id) = none) :
    checkRateLimitNoSweep id maxR windowMs now s =
      (⟨true, (maxR : Int) - 1, now + windowMs, ceilSeconds windowMs⟩,
        ⟨rlSet s.map id ⟨1, now + windowMs⟩, s.lastCleanup⟩) := by
  rcases (liveView_none_iff now (s.map id)).1 h with h1 | ⟨r, h1, hr⟩
  · simp [checkRateLimitNoSweep, h1]
  · simp [checkRateLimitNoSweep, h1, hr]

theorem checkRateLimitNoSweep_blocked_view {s : RLState} {id : String}
    {r : RateLimitRecord} (maxR windowMs now : Nat)
    (h : liveView now (s.map id) = some r) (hcnt : maxR ≤ r.count) :
    checkRateLimitNoSweep id maxR windowMs now s =
      (⟨false, 0, r.resetAt, ceilSeconds (r.resetAt - now)⟩, s) := by
  obtain ⟨h1, hr⟩ := (liveView_some_iff now (s.map id) r).1 h
  simp [checkRateLimitNoSweep, h1, hr, hcnt]

theorem checkRateLimitNoSweep_increment_view {s : RLState} {id : String}
    {r : RateLimitRecord} (maxR windowMs now : Nat)
    (h : liveView now (s.map id) = some r) (hcnt : ¬ maxR ≤ r.count) :
    checkRateLimitNoSweep id maxR windowMs now s =
      (⟨true, (maxR : Int) - (r.count + 1), r.resetAt,
          ceilSeconds (r.resetAt - now)⟩,
        ⟨rlSet s.map id ⟨r.count + 1, r.resetAt⟩, s.lastCleanup⟩) := by
  obtain ⟨h1, hr⟩ := (liveView_some_iff now (s.map id) r).1 h
  simp [checkRateLimitNoSweep, h1, hr, hcnt]

theorem rlSet_liveEquiv {now : Nat} {m1 m2 : RLMap}
    (h : liveEquiv now m1 m2) (id : String) (r : RateLimitRecord) :
    liveEquiv now (rlSet m1 id r) (rlSet m2 id r) := by
  intro k
  by_cases hk : k = id
  · subst hk
    rw [rlSet_same, rlSet_same]
  · rw [rlSet_other _ _ hk, rlSet_other _ _ hk]
    exact h k

/-- One call, equal results and preserved equivalence at any later clock. -/
theorem checkRateLimit_step_equiv {now : Nat} {m1 m2 : RLMap}
    (lc1 lc2 : Nat) (id : String) (maxR windowMs : Nat)
    (h : liveEquiv now m1 m2) :
    (checkRateLimit id maxR windowMs now ⟨m1, lc1⟩).1 =
        (checkRateLimitNoSweep id maxR windowMs now ⟨m2, lc2⟩).1 ∧
      ∀ n2, now ≤ n2 →
        liveEquiv n2 (checkRateLimit id maxR windowMs now ⟨m1, lc1⟩).2.map
          (checkRateLimitNoSweep id maxR windowMs now ⟨m2, lc2⟩).2.map := by
  have hid := h id
  have hclean : ∀ n2, now ≤ n2 →
      liveEquiv n2 (cleanupExpiredRecords now ⟨m1, lc1⟩).map m2 := by
    intro n2 hn2 k
    rw [liveView_cleanup _ k hn2]
    exact liveEquiv_mono hn2 h k
  cases hv : liveView now (m1 id) with
  | none =>
      have hv2 : liveView now (m2 id) = none := by rw [← hid]; exact hv
      rw [checkRateLimit_fresh_view maxR windowMs now hv,
        checkRateLimitNoSweep_fresh_view maxR windowMs now hv2]
      exact ⟨rfl, fun n2 hn2 => rlSet_liveEquiv (hclean n2 hn2) _ _⟩
  | some r =>
      have hv2 : liveView now (m2 id) = some r := by rw [← hid]; exact hv
      by_cases hcnt : maxR ≤ r.count
      · rw [checkRateLimit_blocked_view maxR windowMs now hv hcnt,
          checkRateLimitNoSweep_blocked_view maxR windowMs now hv2 hcnt]
        exact ⟨rfl, fun n2 hn2 => hclean n2 hn2⟩
      · rw [checkRateLimit_increment_view maxR windowMs now hv hcnt,
          checkRateLimitNoSweep_increment_view maxR windowMs now hv2 hcnt]
        exact ⟨rfl, fun n2 hn2 => rlSet_liveEquiv (hclean n2 hn2) _ _⟩

/-- Whole traces: with monotone clocks the with-sweep and no-sweep runs
return identical result lists. -/
theorem runCalls_results_equiv :
    ∀ (calls : List RLCall) (t : Nat) (s1 s2 : RLState),
      liveEquiv t s1.map s2.map →
      List.Chain (fun a b => a ≤ b) t (calls.map RLCall.now) →
      (runCallsSweep calls s1).1 = (runCallsNoSweep calls s2).1
  | [], _, _, _, _, _ => rfl
  | c :: cs, t, s1, s2, h, hchain => by
      rw [List.map_cons, List.chain_cons] at hchain
      obtain ⟨hle, hchain2⟩ := hchain
      have h2 := liveEquiv_mono hle h
      obtain ⟨hres, hst⟩ :=
        checkRateLimit_step_equiv s1.lastCleanup s2.lastCleanup c.id
          c.maxRequests c.windowMs h2
      simp only [runCallsSweep, runCallsNoSweep, List.cons.injEq]
      exact ⟨hres, runCalls_results_equiv cs c.now _ _ (hst c.now le_rfl) hchain2⟩

/-- The `lastCleanup` field after a call is whatever the periodic cleanup
left there. -/
theorem checkRateLimit_lastCleanup (id : String) (maxR w now : Nat)
    (s : RLState) :
    (checkRateLimit id maxR w now s).2.lastCleanup =
      (cleanupExpiredRecords now s).lastCleanup := by
  simp only [checkRateLimit]
  cases s.map id with
  | none => rfl
  | some r =>
      by_cases h1 : r.resetAt < now
      · simp [h1]
      · by_cases h2 : maxR ≤ r.count <;> simp [h1, h2]

/-- Sweep times are spaced at least `CLEANUP_INTERVAL` apart, starting
from the state's `lastCleanup`. -/
theorem runCalls_sweepTimes_spaced :
    ∀ (calls : List RLCall) (s : RLState),
      List.Chain (fun a b => a + CLEANUP_INTERVAL ≤ b) s.lastCleanup
        (runCallsSweep calls s).2.1
  | [], _ => List.Chain.nil
  | c :: cs, s => by
      have ih := runCalls_sweepTimes_spaced cs
        (checkRateLimit c.id c.maxRequests c.windowMs c.now s).2
      simp only [runCallsSweep]
      by_cases hf : c.now - s.lastCleanup < CLEANUP_INTERVAL
      · have hf2 : sweepFires c.now s = false := by simp [sweepFires, hf]
        have hlc : (checkRateLimit c.id c.maxRequests c.windowMs c.now
            s).2.lastCleanup = s.lastCleanup := by
          rw [checkRateLimit_lastCleanup, cleanup_lastCleanup, if_pos hf]
        rw [hlc] at ih
        simpa [hf2] using ih
      · have hf2 : sweepFires c.now s = true := by simp [sweepFires, hf]
        have hlc : (checkRateLimit c.id c.maxRequests c.windowMs c.now
            s).2.lastCleanup = c.now := by
          rw [checkRateLimit_lastCleanup, cleanup_lastCleanup, if_neg hf]
        have hspace : s.lastCleanup + CLEANUP_INTERVAL ≤ c.now := by
          simp only [CLEANUP_INTERVAL] at hf ⊢
          omega
        rw [hlc] at ih
        simp only [hf2, if_true, List.singleton_append]
        exact List.Chain.cons hspace ih

/-- Claim C9: eviction is observationally irrelevant.  (1) For every call
sequence with monotone clocks, the admission results are identical whether
or not the periodic cleanup sweep runs; (2) the sweep keeps every live
bucket and removes only buckets whose `resetAt` has already passed;
(3) sweeps execute at most once per `CLEANUP_INTERVAL` — consecutive
sweep times (starting from the module-load `lastCleanup`) are at least
`CLEANUP_INTERVAL` apart. -/
theorem c9_eviction_observationally_irrelevant
    (calls : List RLCall) (s0 : RLState) (t0 : Nat)
    (hmono : List.Chain (fun a b => a ≤ b) t0 (calls.map RLCall.now)) :
    (runCallsSweep calls s0).1 = (runCallsNoSweep calls s0).1 ∧
    (∀ (now : Nat) (m : RLMap) (k : String),
      (∀ r, m k = some r → ¬ r.resetAt < now → sweepMap now m k = some r) ∧
      (sweepMap now m k = none →
        m k = none ∨ ∃ r, m k = some r ∧ r.resetAt < now)) ∧
    List.Chain (fun a b => a + CLEANUP_INTERVAL ≤ b) s0.lastCleanup
      (runCallsSweep calls s0).2.1 := by
  refine ⟨runCalls_results_equiv calls t0 s0 s0 (fun k => rfl) hmono, ?_,
    runCalls_sweepTimes_spaced calls s0⟩
  intro now m k
  constructor
  · intro r hr hlive
    simp [sweepMap, hr, hlive]
  · intro h
    cases hm : m k with
    | none => exact Or.inl rfl
    | some r =>
        right
        refine ⟨r, rfl, ?_⟩
        by_contra hlive
        simp [sweepMap, hm, hlive] at h

/-- Witness for C9 on a concrete two-call trace. -/
theorem c9_eviction_observationally_irrelevant_witness :
    let calls : List RLCall := [⟨"a", 5, 60000, 100⟩, ⟨"b", 5, 60000, 70000⟩]
    let s0 := rlInit 0
    (runCallsSweep calls s0).1 = (runCallsNoSweep calls s0).1 ∧
    (∀ (now : Nat) (m : RLMap) (k : String),
      (∀ r, m k = some r → ¬ r.resetAt < now → sweepMap now m k = some r) ∧
      (sweepMap now m k = none →
        m k = none ∨ ∃ r, m k = some r ∧ r.resetAt < now)) ∧
    List.Chain (fun a b => a + CLEANUP_INTERVAL ≤ b) (rlInit 0).lastCleanup
      (runCallsSweep calls s0).2.1 :=
  c9_eviction_observationally_irrelevant
    [⟨"a", 5, 60000, 100⟩, ⟨"b", 5, 60000, 70000⟩] (rlInit 0) 0
    (by simp [List.chain_cons])

/-! ## Sanitizer lemmas -/

theorem length_dropTrailing_le (p : Char → Bool) :
    ∀ l : List Char, (dropTrailing p l).length ≤ l.length
  | [] => by simp [dropTrailing]
  | c :: rest => by
      have ih := length_dropTrailing_le p rest
      simp only [dropTrailing]
      split
      · split <;> simp
      · simpa using Nat.succ_le_succ ih

theorem mem_dropTrailing (p : Char → Bool) (c : Char) :
    ∀ l : List Char, c ∈ dropTrailing p l → c ∈ l
  | [] => by simp [dropTrailing]
  | c2 :: rest => by
      intro h
      simp only [dropTrailing] at h
      split at h
      · split at h
        · cases h
        · simp_all
      · rcases List.mem_cons.1 h with h | h
        · exact h ▸ List.mem_cons_self _ _
        · exact List.mem_cons_of_mem _ (mem_dropTrailing p c rest h)

theorem head?_dropTrailing (p : Char → Bool) :
    ∀ l : List Char,
      dropTrailing p l = [] ∨ (dropTrailing p l).head? = l.head?
  | [] => Or.inl rfl
  | c :: rest => by
      simp only [dropTrailing]
      split
      · split
        · exact Or.inl rfl
        · exact Or.inr rfl
      · exact Or.inr rfl

theorem dropTrailing_idem (p : Char → Bool) :
    ∀ l : List Char, dropTrailing p (dropTrailing p l) = dropTrailing p l
  | [] => rfl
  | c :: rest => by
      have ih := dropTrailing_idem p rest
      simp only [dropTrailing]
      split
      · split
        · rfl
        · next hpc => simp [dropTrailing, hpc]
      · next hne => simp [dropTrailing, ih, hne]

theorem head?_dropWhile (p : Char → Bool) (c : Char) :
    ∀ l : List Char, (l.dropWhile p).head? = some c → p c = false
  | [] => by simp
  | c2 :: rest => by
      intro h
      by_cases hp : p c2
      · rw [List.dropWhile_cons_of_pos hp] at h
        exact head?_dropWhile p c rest h
      · rw [List.dropWhile_cons_of_neg hp] at h
        simp only [List.head?_cons, Option.some_inj] at h
        subst h
        simpa using hp

theorem dropWhile_eq_self_of_head {p : Char → Bool} {l : List Char}
    (h : ∀ c, l.head? = some c → p c = false) : l.dropWhile p = l := by
  cases l with
  | nil => rfl
  | cons c rest =>
      have := h c rfl
      simp [List.dropWhile_cons, this]

theorem jsTrim_idem (l : List Char) : jsTrim (jsTrim l) = jsTrim l := by
  unfold jsTrim
  have hdw : (dropTrailing isJsWs (List.dropWhile isJsWs l)).dropWhile isJsWs =
      dropTrailing isJsWs (List.dropWhile isJsWs l) := by
    apply dropWhile_eq_self_of_head
    intro c hc
    rcases head?_dropTrailing isJsWs (List.dropWhile isJsWs l) with he | he
    · rw [he] at hc
      cases hc
    · rw [he] at hc
      exact head?_dropWhile isJsWs c l hc
  rw [hdw, dropTrailing_idem]

theorem mem_jsTrim {c : Char} {l : List Char} (h : c ∈ jsTrim l) : c ∈ l :=
  (List.dropWhile_sublist isJsWs).mem (mem_dropTrailing _ _ _ h)

theorem length_jsTrim_le (l : List Char) : (jsTrim l).length ≤ l.length :=
  le_trans (length_dropTrailing_le _ _) (List.dropWhile_sublist isJsWs).length_le

theorem length_collapseAux_le : ∀ (b : Bool) (l : List Char),
    (collapseWsAux b l).length ≤ l.length
  | _, [] => le_refl _
  | b, c :: rest => by
      simp only [collapseWsAux]
      split
      · split
        · exact le_trans (length_collapseAux_le true rest) (Nat.le_succ _)
        · simpa using Nat.succ_le_succ (length_collapseAux_le true rest)
      · simpa using Nat.succ_le_succ (length_collapseAux_le false rest)

theorem mem_collapseAux (c : Char) :
    ∀ (b : Bool) (l : List Char), c ∈ collapseWsAux b l → c = ' ' ∨ c ∈ l
  | _, [] => by simp [collapseWsAux]
  | b, c2 :: rest => by
      intro h
      simp only [collapseWsAux] at h
      split at h
      · split at h
        · rcases mem_collapseAux c true rest h with h2 | h2
          · exact Or.inl h2
          · exact Or.inr (List.mem_cons_of_mem _ h2)
        · rcases List.mem_cons.1 h with h | h
          · exact Or.inl h
          · rcases mem_collapseAux c true rest h with h2 | h2
            · exact Or.inl h2
            · exact Or.inr (List.mem_cons_of_mem _ h2)
      · rcases List.mem_cons.1 h with h | h
        · exact Or.inr (by simp [h])
        · rcases mem_collapseAux c false rest h with h2 | h2
          · exact Or.inl h2
          · exact Or.inr (List.mem_cons_of_mem _ h2)

theorem collapseAux_ws_space (c : Char) :
    ∀ (b : Bool) (l : List Char), c ∈ collapseWsAux b l →
      isJsWs c = true → c = ' '
  | _, [] => by simp [collapseWsAux]
  | b, c2 :: rest => by
      intro h hws
      simp only [collapseWsAux] at h
      split at h
      · split at h
        · exact collapseAux_ws_space c true rest h hws
        · rcases List.mem_cons.1 h with h | h
          · exact h
          · exact collapseAux_ws_space c true rest h hws
      · next hc2 =>
          rcases List.mem_cons.1 h with h | h
          · subst h
            rw [hws] at hc2
            cases hc2 rfl
          · exact collapseAux_ws_space c false rest h hws

theorem collapseAux_props : ∀ l : List Char,
    (∀ c, (collapseWsAux true l).head? = some c → isJsWs c = false) ∧
    List.Chain' wsSeparated (collapseWsAux false l) ∧
    List.Chain' wsSeparated (collapseWsAux true l)
  | [] => by simp [collapseWsAux]
  | c :: rest => by
      obtain ⟨ihHead, ihF, ihT⟩ := collapseAux_props rest
      by_cases hws : isJsWs c = true
      · refine ⟨?_, ?_, ?_⟩
        · intro c2 hc2
          simp only [collapseWsAux, hws, if_true] at hc2
          exact ihHead c2 hc2
        · have hgoal : collapseWsAux false (c :: rest) =
              ' ' :: collapseWsAux true rest := by
            simp [collapseWsAux, hws]
          rw [hgoal, List.chain'_cons']
          refine ⟨?_, ihT⟩
          intro b hb
          exact Or.inr (ihHead b hb)
        · have hgoal : collapseWsAux true (c :: rest) =
              collapseWsAux true rest := by
            simp [collapseWsAux, hws]
          rw [hgoal]
          exact ihT
      · have hws2 : isJsWs c = false := by
          revert hws
          cases isJsWs c <;> simp
        have hgoal : ∀ b : Bool, collapseWsAux b (c :: rest) =
            c :: collapseWsAux false rest := by
          intro b
          simp [collapseWsAux, hws2]
        refine ⟨?_, ?_, ?_⟩
        · intro c2 hc2
          rw [hgoal] at hc2
          simp only [List.head?_cons, Option.some_inj] at hc2
          subst hc2
          exact hws2
        · rw [hgoal, List.chain'_cons']
          exact ⟨fun b _ => Or.inl hws2, ihF⟩
        · rw [hgoal, List.chain'_cons']
          exact ⟨fun b _ => Or.inl hws2, ihF⟩

theorem collapseAux_id : ∀ l : List Char,
    (∀ c ∈ l, isJsWs c = true → c = ' ') →
    List.Chain' wsSeparated l →
    collapseWsAux false l = l ∧
    ((∀ c, l.head? = some c → isJsWs c = false) → collapseWsAux true l = l)
  | [] => fun _ _ => ⟨rfl, fun _ => rfl⟩
  | c :: rest => by
      intro hsp hch
      obtain ⟨ihF, ihT⟩ := collapseAux_id rest
        (fun d hd => hsp d (List.mem_cons_of_mem _ hd)) hch.tail
      by_cases hws : isJsWs c = true
      · have hc : c = ' ' := hsp c (List.mem_cons_self _ _) hws
        have hrest : ∀ d, rest.head? = some d → isJsWs d = false := by
          intro d hd
          have h2 := (List.chain'_cons'.1 hch).1 d hd
          rcases h2 with h2 | h2
          · rw [hc] at h2
            simp [isJsWs] at h2
          · exact h2
        constructor
        · have hgoal : collapseWsAux false (c :: rest) =
              ' ' :: collapseWsAux true rest := by
            simp [collapseWsAux, hws]
          rw [hgoal, ihT hrest, hc]
        · intro hhead
          have h3 := hhead c rfl
          rw [hws] at h3
          cases h3
      · have hws2 : isJsWs c = false := by
          revert hws
          cases isJsWs c <;> simp
        have hgoal : ∀ b : Bool, collapseWsAux b (c :: rest) =
            c :: collapseWsAux false rest := by
          intro b
          simp [collapseWsAux, hws2]
        exact ⟨by rw [hgoal, ihF], fun _ => by rw [hgoal, ihF]⟩

theorem chain'_dropWhile {R : Char → Char → Prop} {p : Char → Bool} :
    ∀ {l : List Char}, List.Chain' R l → List.Chain' R (l.dropWhile p)
  | [], _ => List.chain'_nil
  | c :: rest, h => by
      by_cases hp : p c
      · rw [List.dropWhile_cons_of_pos hp]
        exact chain'_dropWhile h.tail
      · rwa [List.dropWhile_cons_of_neg hp]

theorem chain'_dropTrailing {R : Char → Char → Prop} {p : Char → Bool} :
    ∀ {l : List Char}, List.Chain' R l → List.Chain' R (dropTrailing p l)
  | [], _ => List.chain'_nil
  | c :: rest, h => by
      simp only [dropTrailing]
      split
      · split
        · exact List.chain'_nil
        · exact List.chain'_singleton _
      · next hne =>
          rw [List.chain'_cons']
          refine ⟨?_, chain'_dropTrailing h.tail⟩
          intro b hb
          rcases head?_dropTrailing p rest with he | he
          · rw [he] at hne
            simp at hne
          · rw [he] at hb
            exact (List.chain'_cons'.1 h).1 b hb

theorem collapseWs_id {l : List Char}
    (hsp : ∀ c ∈ l, isJsWs c = true → c = ' ')
    (hch : List.Chain' wsSeparated l) : collapseWs l = l :=
  (collapseAux_id l hsp hch).1

/-- Length bound for the sanitizer. -/
theorem sanitizeString_length_le (l : List Char) (n : Nat) :
    (sanitizeString l n).length ≤ n := by
  unfold sanitizeString
  refine le_trans (length_jsTrim_le _) ?_
  refine le_trans (List.length_filter_le _ _) ?_
  refine le_trans (length_collapseAux_le _ _) ?_
  refine le_trans (List.length_filter_le _ _) ?_
  refine le_trans (List.length_filter_le _ _) ?_
  simp only [List.length_take]
  exact Nat.min_le_left n ((jsTrim l).length)

/-- Any list that already has all the shape invariants of sanitizer output
is a fixed point of the sanitizer. -/
theorem sanitize_fixed_point {x : List Char} (n : Nat)
    (hlen : x.length ≤ n)
    (htrim : jsTrim x = x)
    (hctl : ∀ c ∈ x, isCtlChar c = false)
    (hdan : ∀ c ∈ x, isDangerousChar c = false)
    (hzw : ∀ c ∈ x, isZeroWidthChar c = false)
    (hsp : ∀ c ∈ x, isJsWs c = true → c = ' ')
    (hch : List.Chain' wsSeparated x) :
    sanitizeString x n = x := by
  have h1 : x.filter (fun c => !isCtlChar c) = x :=
    List.filter_eq_self.2 (fun c hc => by simp [hctl c hc])
  have h2 : x.filter (fun c => !isDangerousChar c) = x :=
    List.filter_eq_self.2 (fun c hc => by simp [hdan c hc])
  have h3 : x.filter (fun c => !isZeroWidthChar c) = x :=
    List.filter_eq_self.2 (fun c hc => by simp [hzw c hc])
  simp only [sanitizeString]
  rw [htrim, List.take_of_length_le hlen, h1, h2, collapseWs_id hsp hch, h3,
    htrim]

/-- Re-applying the sanitizer is a no-op on inputs containing none of
U+200B–U+200D. -/
theorem sanitizeString_idem_of_no_zw (l : List Char) (n : Nat)
    (hzw : ∀ c ∈ l, isPureZeroWidth c = false) :
    sanitizeString (sanitizeString l n) n = sanitizeString l n := by
  have hrepr : sanitizeString l n =
      jsTrim ((collapseWs ((((jsTrim l).take n).filter
        (fun c => !isCtlChar c)).filter
        (fun c => !isDangerousChar c))).filter
        (fun c => !isZeroWidthChar c)) := rfl
  have hmem3 : ∀ c ∈ (((jsTrim l).take n).filter
      (fun c => !isCtlChar c)).filter (fun c => !isDangerousChar c), c ∈ l := by
    intro c hc
    have hc2 := List.mem_filter.1 hc
    have hc3 := List.mem_filter.1 hc2.1
    exact mem_jsTrim (List.mem_of_mem_take hc3.1)
  have hctl3 : ∀ c ∈ (((jsTrim l).take n).filter
      (fun c => !isCtlChar c)).filter (fun c => !isDangerousChar c),
      isCtlChar c = false := by
    intro c hc
    have hc2 := List.mem_filter.1 hc
    have hc3 := List.mem_filter.1 hc2.1
    simpa using hc3.2
  have hdan3 : ∀ c ∈ (((jsTrim l).take n).filter
      (fun c => !isCtlChar c)).filter (fun c => !isDangerousChar c),
      isDangerousChar c = false := by
    intro c hc
    simpa using (List.mem_filter.1 hc).2
  have hsp4 : ∀ c ∈ collapseWs ((((jsTrim l).take n).filter
      (fun c => !isCtlChar c)).filter (fun c => !isDangerousChar c)),
      isJsWs c = true → c = ' ' :=
    fun c hc => collapseAux_ws_space c false _ hc
  have hch4 : List.Chain' wsSeparated (collapseWs ((((jsTrim l).take n).filter
      (fun c => !isCtlChar c)).filter (fun c => !isDangerousChar c))) :=
    (collapseAux_props _).2.1
  have hmem4 : ∀ c ∈ collapseWs ((((jsTrim l).take n).filter
      (fun c => !isCtlChar c)).filter (fun c => !isDangerousChar c)),
      c = ' ' ∨ c ∈ (((jsTrim l).take n).filter
        (fun c => !isCtlChar c)).filter (fun c => !isDangerousChar c) :=
    fun c hc => mem_collapseAux c false _ hc
  have hzw4 : ∀ c ∈ collapseWs ((((jsTrim l).take n).filter
      (fun c => !isCtlChar c)).filter (fun c => !isDangerousChar c)),
      isZeroWidthChar c = false := by
    intro c hc
    rcases hmem4 c hc with rfl | hc3
    · decide
    · have hpz : isPureZeroWidth c = false := hzw c (hmem3 c hc3)
      have hfe : c.toNat ≠ 0xFEFF := by
        intro hfeq
        have hwsc : isJsWs c = true := by simp [isJsWs, hfeq]
        have hceq := hsp4 c hc hwsc
        rw [hceq] at hfeq
        exact absurd hfeq (by decide)
      simp only [isZeroWidthChar, Bool.or_eq_false_iff]
      constructor
      · simpa [isPureZeroWidth] using hpz
      · simpa using hfe
  have hfilter5 : (collapseWs ((((jsTrim l).take n).filter
      (fun c => !isCtlChar c)).filter
      (fun c => !isDangerousChar c))).filter
      (fun c => !isZeroWidthChar c) =
      collapseWs ((((jsTrim l).take n).filter
        (fun c => !isCtlChar c)).filter (fun c => !isDangerousChar c)) :=
    List.filter_eq_self.2 (fun c hc => by simp [hzw4 c hc])
  rw [hfilter5] at hrepr
  have hmem_out : ∀ c ∈ sanitizeString l n,
      c ∈ collapseWs ((((jsTrim l).take n).filter
        (fun c => !isCtlChar c)).filter (fun c => !isDangerousChar c)) := by
    intro c hc
    rw [hrepr] at hc
    exact mem_jsTrim hc
  refine sanitize_fixed_point n (sanitizeString_length_le l n) ?_ ?_ ?_ ?_ ?_ ?_
  · rw [hrepr]
    exact jsTrim_idem _
  · intro c hc
    rcases hmem4 c (hmem_out c hc) with rfl | hc3
    · decide
    · exact hctl3 c hc3
  · intro c hc
    rcases hmem4 c (hmem_out c hc) with rfl | hc3
    · decide
    · exact hdan3 c hc3
  · intro c hc
    exact hzw4 c (hmem_out c hc)
  · intro c hc
    exact hsp4 c (hmem_out c hc)
  · rw [hrepr]
    exact chain'_dropTrailing (chain'_dropWhile hch4)

/-- Claim C4 as stated is false: the sanitizer is not idempotent.  On
`"a ​ b"` one application yields `"a  b"` (the zero-width space is
deleted after whitespace collapsing, leaving a double space), and a second
application collapses it to `"a b"`. -/
theorem c4_sanitizer_not_idempotent_counterexample :
    sanitizeString (sanitizeString ['a', ' ', Char.ofNat 0x200B, ' ', 'b'] 500)
        500 ≠
      sanitizeString ['a', ' ', Char.ofNat 0x200B, ' ', 'b'] 500 ∧
    sanitizeString ['a', ' ', Char.ofNat 0x200B, ' ', 'b'] 500 =
      ['a', ' ', ' ', 'b'] ∧
    sanitizeString ['a', ' ', ' ', 'b'] 500 = ['a', ' ', 'b'] := by
  decide

/-- Claim C4 (amended): the output of `sanitizeString(S, n)` always has
length at most `n`; re-applying the sanitizer is a no-op for every string
containing none of the zero-width characters U+200B–U+200D (on strings
containing them, deleting a zero-width character after whitespace
collapsing can create a new double space, so idempotence can fail). -/
theorem c4_sanitizer_length_bound_and_idempotence :
    (∀ (l : List Char) (n : Nat), (sanitizeString l n).length ≤ n) ∧
    (∀ (l : List Char) (n : Nat), (∀ c ∈ l, isPureZeroWidth c = false) →
      sanitizeString (sanitizeString l n) n = sanitizeString l n) :=
  ⟨sanitizeString_length_le, sanitizeString_idem_of_no_zw⟩

/-- Witness for C4 (amended) at a concrete string. -/
theorem c4_sanitizer_length_bound_and_idempotence_witness :
    (sanitizeString ['a', ' ', ' ', 'x', '1'] 500).length ≤ 500 ∧
    (∀ c ∈ ['a', ' ', ' ', 'x', '1'], isPureZeroWidth c = false) ∧
    sanitizeString (sanitizeString ['a', ' ', ' ', 'x', '1'] 500) 500 =
      sanitizeString ['a', ' ', ' ', 'x', '1'] 500 :=
  ⟨c4_sanitizer_length_bound_and_idempotence.1 ['a', ' ', ' ', 'x', '1'] 500,
    by decide,
    c4_sanitizer_length_bound_and_idempotence.2 ['a', ' ', ' ', 'x', '1'] 500
      (by decide)⟩

/-! ## Response-recovery lemmas -/

theorem dropTrailing_all (p : Char → Bool) :
    ∀ l : List Char, (∀ x ∈ l, p x = true) → dropTrailing p l = []
  | [], _ => rfl
  | c :: rest, h => by
      have ih := dropTrailing_all p rest
        (fun x hx => h x (List.mem_cons_of_mem _ hx))
      simp [dropTrailing, ih, h c (List.mem_cons_self _ _)]

theorem dropTrailing_append_all (p : Char → Bool) (b : List Char)
    (hb : ∀ x ∈ b, p x = true) :
    ∀ a : List Char, dropTrailing p (a ++ b) = dropTrailing p a
  | [] => by simpa using dropTrailing_all p b hb
  | c :: rest => by
      have ih := dropTrailing_append_all p b hb rest
      simp only [List.cons_append, dropTrailing, List.append_eq, ih]

theorem dropTrailing_eq_self_of_last (p : Char → Bool) :
    ∀ l : List Char, (∀ ch, l.getLast? = some ch → p ch = false) →
      dropTrailing p l = l
  | [], _ => rfl
  | c :: rest, h => by
      have ih := dropTrailing_eq_self_of_last p rest (by
        intro ch hch
        refine h ch ?_
        cases rest with
        | nil => simp at hch
        | cons d r2 => exact hch)
      cases hrr : rest with
      | nil =>
          have hc := h c (by simp [hrr])
          simp [dropTrailing, hrr, hc]
      | cons d rest2 =>
          have hempty : (dropTrailing p rest).isEmpty = false := by
            rw [ih, hrr]
            rfl
          have hunfold : dropTrailing p (c :: rest) =
              if (dropTrailing p rest).isEmpty then
                (if p c then [] else [c]) else c :: dropTrailing p rest := rfl
          rw [← hrr, hunfold, hempty, ih]
          simp

theorem dropTrailing_decomp (p : Char → Bool) :
    ∀ l : List Char, ∃ suf, l = dropTrailing p l ++ suf ∧
      ∀ x ∈ suf, p x = true
  | [] => ⟨[], rfl, by simp⟩
  | c :: rest => by
      obtain ⟨suf, hsuf, hall⟩ := dropTrailing_decomp p rest
      by_cases hempty : (dropTrailing p rest).isEmpty = true
      · have hrest : dropTrailing p rest = [] := by
          cases hdt : dropTrailing p rest with
          | nil => rfl
          | cons a b =>
              rw [hdt] at hempty
              cases hempty
        have hrs : rest = suf := by
          have h2 := hsuf
          rw [hrest] at h2
          simpa using h2
        by_cases hpc : p c = true
        · have hd : dropTrailing p (c :: rest) = [] := by
            simp [dropTrailing, hrest, hpc]
          refine ⟨c :: suf, ?_, ?_⟩
          · rw [hd, hrs]
            rfl
          · intro x hx
            rcases List.mem_cons.1 hx with rfl | hx
            · exact hpc
            · exact hall x hx
        · have hd : dropTrailing p (c :: rest) = [c] := by
            simp [dropTrailing, hrest, hpc]
          refine ⟨suf, ?_, hall⟩
          rw [hd, hrs]
          rfl
      · have hempty2 : (dropTrailing p rest).isEmpty = false := by
          revert hempty
          cases (dropTrailing p rest).isEmpty <;> simp
        have hunfold : dropTrailing p (c :: rest) =
            if (dropTrailing p rest).isEmpty then
              (if p c then [] else [c]) else c :: dropTrailing p rest := rfl
        refine ⟨suf, ?_, hall⟩
        rw [hunfold]
        simp only [hempty2, Bool.false_eq_true, if_false]
        rw [List.cons_append, ← hsuf]

theorem isJsonWs_imp_isJsWs {c : Char} (h : isJsonWs c = true) :
    isJsWs c = true := by
  simp only [isJsonWs, Bool.or_eq_true, decide_eq_true_eq] at h
  simp only [isJsWs, Bool.or_eq_true, Bool.and_eq_true, decide_eq_true_eq]
  omega

theorem not_isJsWs_imp_not_isJsonWs {c : Char} (h : isJsWs c = false) :
    isJsonWs c = false := by
  cases hj : isJsonWs c
  · rfl
  · rw [isJsonWs_imp_isJsWs hj] at h
    cases h

theorem isDigitChar_not_ws {c : Char} (h : isDigitChar c = true) :
    isJsWs c = false := by
  simp only [isDigitChar, Bool.and_eq_true, decide_eq_true_eq] at h
  simp only [isJsWs, Bool.or_eq_false_iff, decide_eq_false_iff_not,
    Bool.and_eq_false_iff, decide_eq_false_iff_not]
  omega

theorem getLast?_of_ne_nil {l : List Char} (h : l ≠ []) :
    ∃ ch, l.getLast? = some ch ∧ ch ∈ l := by
  refine ⟨l.getLast h, List.getLast?_eq_getLast l h, ?_⟩
  exact List.getLast_mem h

/-- Compose: a consumed chunk on the left of an already-decomposed parse. -/
theorem boundary_extend {l m rest : List Char} (pre : List Char)
    (hsplit : l = pre ++ m)
    (h : ∃ c ch, m = c ++ rest ∧ c.getLast? = some ch ∧ isJsWs ch = false) :
    ∃ c ch, l = c ++ rest ∧ c.getLast? = some ch ∧ isJsWs ch = false := by
  obtain ⟨c, ch, h1, h2, h3⟩ := h
  have hcne : c ≠ [] := by
    intro hc
    rw [hc] at h2
    cases h2
  refine ⟨pre ++ c, ch, ?_, ?_, h3⟩
  · rw [hsplit, h1, List.append_assoc]
  · rw [List.getLast?_append_of_ne_nil _ hcne]
    exact h2

/-- Base: the consumed chunk ends with an explicit non-whitespace
character. -/
theorem boundary_concat {l rest : List Char} (pre : List Char) (x : Char)
    (hsplit : l = pre ++ x :: rest) (hx : isJsWs x = false) :
    ∃ c ch, l = c ++ rest ∧ c.getLast? = some ch ∧ isJsWs ch = false := by
  refine ⟨pre ++ [x], x, ?_, ?_, hx⟩
  · rw [hsplit, List.append_assoc]
    rfl
  · simp

theorem parseStringBody_boundary :
    ∀ (fuel : Nat) (l s rest : List Char),
      parseStringBody fuel l = some (s, rest) →
      ∃ c ch, l = c ++ rest ∧ c.getLast? = some ch ∧ isJsWs ch = false
  | 0, l, s, rest, h => by simp [parseStringBody] at h
  | fuel + 1, [], s, rest, h => by simp [parseStringBody] at h
  | fuel + 1, c :: r, s, rest, h => by
      unfold parseStringBody at h
      by_cases hq : c = Char.ofNat 0x22
      · rw [if_pos hq] at h
        injection h with h2
        injection h2 with hs hr
        subst hq
        exact boundary_concat [] (Char.ofNat 0x22) (by rw [hr]; simp)
          (by decide)
      · rw [if_neg hq] at h
        by_cases hb : c = Char.ofNat 0x5C
        · rw [if_pos hb] at h
          split at h
          · cases h
          · next e rest2 =>
              by_cases hu : e = 'u'
              · rw [if_pos hu] at h
                split at h
                · next h1 h2 h3 h4 rest3 =>
                    split at h
                    · next v1 v2 v3 v4 hv1 hv2 hv3 hv4 =>
                        simp only [Option.map_eq_some'] at h
                        obtain ⟨⟨s2, rest2b⟩, hps, hmap⟩ := h
                        injection hmap with hfst hsnd
                        rw [show rest2b = rest from hsnd] at hps
                        subst hu
                        exact boundary_extend [c, 'u', h1, h2, h3, h4] rfl
                          (parseStringBody_boundary fuel rest3 s2 rest hps)
                    · cases h
                · cases h
              · rw [if_neg hu] at h
                split at h
                · next d hd =>
                    simp only [Option.map_eq_some'] at h
                    obtain ⟨⟨s2, rest2b⟩, hps, hmap⟩ := h
                    injection hmap with hfst hsnd
                    rw [show rest2b = rest from hsnd] at hps
                    exact boundary_extend [c, e] rfl
                      (parseStringBody_boundary fuel rest2 s2 rest hps)
                · cases h
        · rw [if_neg hb] at h
          by_cases hctl : c.toNat < 0x20
          · rw [if_pos hctl] at h
            cases h
          · rw [if_neg hctl] at h
            simp only [Option.map_eq_some'] at h
            obtain ⟨⟨s2, rest2b⟩, hps, hmap⟩ := h
            injection hmap with hfst hsnd
            rw [show rest2b = rest from hsnd] at hps
            exact boundary_extend [c] rfl
              (parseStringBody_boundary fuel r s2 rest hps)

theorem takeWhile_getLast {p : Char → Bool} {l : List Char}
    (h : l.takeWhile p ≠ []) :
    ∃ ch, (l.takeWhile p).getLast? = some ch ∧ p ch = true := by
  obtain ⟨ch, hlast, hmem⟩ := getLast?_of_ne_nil h
  exact ⟨ch, hlast, List.mem_takeWhile_imp hmem⟩

theorem parseDigitsTail_boundary {mant : Int} {fracLen : Nat} {esign : Bool}
    {l1 : List Char} {me : Int × Int} {rest : List Char}
    (h : parseDigitsTail mant fracLen esign l1 = some (me, rest)) :
    ∃ c ch, l1 = c ++ rest ∧ c.getLast? = some ch ∧ isDigitChar ch = true := by
  unfold parseDigitsTail at h
  split at h
  · cases h
  · next hne =>
      injection h with h2
      injection h2 with hval hrest
      have hne2 : l1.takeWhile isDigitChar ≠ [] := by
        intro hnil
        rw [hnil] at hne
        cases hne rfl
      obtain ⟨ch, hlast, hdig⟩ := takeWhile_getLast hne2
      refine ⟨l1.takeWhile isDigitChar, ch, ?_, hlast, hdig⟩
      rw [hrest.symm]
      exact (List.takeWhile_append_dropWhile _ _).symm

theorem parseExpTail_boundary {mant : Int} {fracLen : Nat}
    {l : List Char} {me : Int × Int} {rest : List Char}
    (h : parseExpTail mant fracLen l = some (me, rest)) :
    ∃ c ch, l = c ++ rest ∧ c.getLast? = some ch ∧ isDigitChar ch = true := by
  cases l with
  | nil =>
      simp only [parseExpTail] at h
      obtain ⟨c, ch, h1, h2, _⟩ := parseDigitsTail_boundary h
      cases c with
      | nil => cases h2
      | cons a b => cases h1
  | cons c r =>
      simp only [parseExpTail] at h
      by_cases hp : c = '+'
      · rw [if_pos hp] at h
        obtain ⟨c2, ch, h1, h2, h3⟩ := parseDigitsTail_boundary h
        refine ⟨c :: c2, ch, by rw [h1]; rfl, ?_, h3⟩
        have hc2 : c2 ≠ [] := by
          intro hnil
          rw [hnil] at h2
          cases h2
        rw [show c :: c2 = [c] ++ c2 from rfl,
          List.getLast?_append_of_ne_nil _ hc2]
        exact h2
      · rw [if_neg hp] at h
        by_cases hm : c = '-'
        · rw [if_pos hm] at h
          obtain ⟨c2, ch, h1, h2, h3⟩ := parseDigitsTail_boundary h
          refine ⟨c :: c2, ch, by rw [h1]; rfl, ?_, h3⟩
          have hc2 : c2 ≠ [] := by
            intro hnil
            rw [hnil] at h2
            cases h2
          rw [show c :: c2 = [c] ++ c2 from rfl,
            List.getLast?_append_of_ne_nil _ hc2]
          exact h2
        · rw [if_neg hm] at h
          exact parseDigitsTail_boundary h

theorem parseFracRest_boundary {neg : Bool} {intDs rest : List Char}
    {me : Int × Int} {r : List Char}
    (h : parseFracRest neg intDs rest = some (me, r)) :
    ∃ c ch, rest = c ++ r ∧ c.getLast? = some ch ∧ isDigitChar ch = true := by
  unfold parseFracRest at h
  split at h
  · cases h
  · next hne =>
      have hne2 : rest.takeWhile isDigitChar ≠ [] := by
        intro hnil
        rw [hnil] at hne
        cases hne rfl
      obtain ⟨chd, hlastd, hdigd⟩ := takeWhile_getLast hne2
      have hsplit : rest = rest.takeWhile isDigitChar ++
          rest.dropWhile isDigitChar :=
        (List.takeWhile_append_dropWhile _ _).symm
      split at h
      · next e r3 hdrop =>
          by_cases hee : e = 'e' ∨ e = 'E'
          · rw [if_pos hee] at h
            obtain ⟨c2, ch, h1, h2, h3⟩ := parseExpTail_boundary h
            have hc2 : c2 ≠ [] := by
              intro hnil
              rw [hnil] at h2
              cases h2
            refine ⟨rest.takeWhile isDigitChar ++ e :: c2, ch, ?_, ?_, h3⟩
            · rw [hdrop, h1] at hsplit
              exact hsplit.trans (by simp)
            · rw [List.getLast?_append_of_ne_nil]
              · rw [show e :: c2 = [e] ++ c2 from rfl,
                  List.getLast?_append_of_ne_nil _ hc2]
                exact h2
              · simp
          · rw [if_neg hee] at h
            injection h with h2
            injection h2 with hval hrest
            refine ⟨rest.takeWhile isDigitChar, chd, ?_, hlastd, hdigd⟩
            rw [hdrop] at hsplit
            rw [← hrest]
            exact hsplit
      · next hdrop =>
          injection h with h2
          injection h2 with hval hrest
          refine ⟨rest.takeWhile isDigitChar, chd, ?_, hlastd, hdigd⟩
          rw [hdrop] at hsplit
          rw [← hrest]
          exact hsplit

theorem parseNumAfterInt_boundary {neg : Bool} {intDs l : List Char}
    {me : Int × Int} {rest : List Char}
    (h : parseNumAfterInt neg intDs l = some (me, rest)) :
    rest = l ∨
      (∃ c ch, l = c ++ rest ∧ c.getLast? = some ch ∧
        isDigitChar ch = true) := by
  cases l with
  | nil =>
      simp only [parseNumAfterInt] at h
      injection h with h2
      injection h2 with hval hrest
      exact Or.inl hrest.symm
  | cons c r =>
      simp only [parseNumAfterInt] at h
      by_cases hdot : c = '.'
      · rw [if_pos hdot] at h
        obtain ⟨c2, ch, h1, h2, h3⟩ := parseFracRest_boundary h
        right
        refine ⟨c :: c2, ch, by rw [h1]; rfl, ?_, h3⟩
        have hc2 : c2 ≠ [] := by
          intro hnil
          rw [hnil] at h2
          cases h2
        rw [show c :: c2 = [c] ++ c2 from rfl,
          List.getLast?_append_of_ne_nil _ hc2]
        exact h2
      · rw [if_neg hdot] at h
        by_cases hee : c = 'e' ∨ c = 'E'
        · rw [if_pos hee] at h
          obtain ⟨c2, ch, h1, h2, h3⟩ := parseExpTail_boundary h
          right
          refine ⟨c :: c2, ch, by rw [h1]; rfl, ?_, h3⟩
          have hc2 : c2 ≠ [] := by
            intro hnil
            rw [hnil] at h2
            cases h2
          rw [show c :: c2 = [c] ++ c2 from rfl,
            List.getLast?_append_of_ne_nil _ hc2]
          exact h2
        · rw [if_neg hee] at h
          injection h with h2
          injection h2 with hval hrest
          exact Or.inl hrest.symm

theorem parseNum_boundary {neg : Bool} {l : List Char}
    {me : Int × Int} {rest : List Char}
    (h : parseNum neg l = some (me, rest)) :
    ∃ c ch, l = c ++ rest ∧ c.getLast? = some ch ∧
      isDigitChar ch = true := by
  unfold parseNum at h
  split at h
  · cases h
  · next hne =>
      split at h
      · cases h
      · have hne2 : l.takeWhile isDigitChar ≠ [] := by
          intro hnil
          rw [hnil] at hne
          cases hne rfl
        obtain ⟨chd, hlastd, hdigd⟩ := takeWhile_getLast hne2
        have hsplit : l = l.takeWhile isDigitChar ++
            l.dropWhile isDigitChar :=
          (List.takeWhile_append_dropWhile _ _).symm
        rcases parseNumAfterInt_boundary h with hrest | ⟨c2, ch, h1, h2, h3⟩
        · refine ⟨l.takeWhile isDigitChar, chd, ?_, hlastd, hdigd⟩
          rw [← hrest] at hsplit
          exact hsplit
        · have hc2 : c2 ≠ [] := by
            intro hnil
            rw [hnil] at h2
            cases h2
          refine ⟨l.takeWhile isDigitChar ++ c2, ch, ?_, ?_, h3⟩
          · rw [h1] at hsplit
            exact hsplit.trans (by simp)
          · rw [List.getLast?_append_of_ne_nil _ hc2]
            exact h2

/-- The parsers consume a nonempty prefix that ends in a non-whitespace
character (the closing delimiter, a literal letter, or a digit). -/
theorem parse_boundary : ∀ fuel : Nat,
    (∀ l v rest, parseVal fuel l = some (v, rest) →
      ∃ c ch, l = c ++ rest ∧ c.getLast? = some ch ∧ isJsWs ch = false) ∧
    (∀ l vs rest, parseElems fuel l = some (vs, rest) →
      ∃ c ch, l = c ++ rest ∧ c.getLast? = some ch ∧ isJsWs ch = false) ∧
    (∀ l ms rest, parseMembers fuel l = some (ms, rest) →
      ∃ c ch, l = c ++ rest ∧ c.getLast? = some ch ∧ isJsWs ch = false)
  | 0 => by
      refine ⟨?_, ?_, ?_⟩ <;> intro l v rest h <;> simp [parseVal,
        parseElems, parseMembers] at h
  | fuel + 1 => by
      obtain ⟨ihV, ihE, ihM⟩ := parse_boundary fuel
      refine ⟨?_, ?_, ?_⟩
      · -- parseVal
        intro l v rest h
        cases l with
        | nil => simp [parseVal] at h
        | cons c r =>
            simp only [parseVal] at h
            by_cases h1 : c = Char.ofNat 0x22
            · rw [if_pos h1] at h
              simp only [Option.map_eq_some'] at h
              obtain ⟨⟨s2, r2⟩, hps, hmap⟩ := h
              injection hmap with hfst hsnd
              rw [show r2 = rest from hsnd] at hps
              exact boundary_extend [c] rfl
                (parseStringBody_boundary fuel r s2 rest hps)
            · rw [if_neg h1] at h
              by_cases h2 : c = Char.ofNat 0x7B
              · rw [if_pos h2] at h
                split at h
                · next c2 r2 hskip =>
                    have hsp : r = r.takeWhile isJsonWs ++ skipJWs r :=
                      (List.takeWhile_append_dropWhile _ _).symm
                    rw [hskip] at hsp
                    by_cases h3 : c2 = Char.ofNat 0x7D
                    · rw [if_pos h3] at h
                      injection h with hpair
                      injection hpair with hv hr
                      refine boundary_concat (c :: r.takeWhile isJsonWs) c2
                        ?_ ?_
                      · rw [← hr]
                        exact (congrArg (List.cons c) hsp).trans (by simp)
                      · rw [h3]
                        decide
                    · rw [if_neg h3] at h
                      simp only [Option.map_eq_some'] at h
                      obtain ⟨⟨ms, r3⟩, hpm, hmap⟩ := h
                      injection hmap with hfst hsnd
                      rw [show r3 = rest from hsnd] at hpm
                      refine boundary_extend (c :: r.takeWhile isJsonWs)
                        ?_ (ihM _ _ _ hpm)
                      have hsp2 : r = r.takeWhile isJsonWs ++ skipJWs r :=
                        (List.takeWhile_append_dropWhile _ _).symm
                      exact (congrArg (List.cons c) hsp2).trans (by simp)
                · cases h
              · rw [if_neg h2] at h
                by_cases h4 : c = Char.ofNat 0x5B
                · rw [if_pos h4] at h
                  split at h
                  · next c2 r2 hskip =>
                      have hsp : r = r.takeWhile isJsonWs ++ skipJWs r :=
                        (List.takeWhile_append_dropWhile _ _).symm
                      rw [hskip] at hsp
                      by_cases h3 : c2 = Char.ofNat 0x5D
                      · rw [if_pos h3] at h
                        injection h with hpair
                        injection hpair with hv hr
                        refine boundary_concat (c :: r.takeWhile isJsonWs) c2
                          ?_ ?_
                        · rw [← hr]
                          exact (congrArg (List.cons c) hsp).trans (by simp)
                        · rw [h3]
                          decide
                      · rw [if_neg h3] at h
                        simp only [Option.map_eq_some'] at h
                        obtain ⟨⟨vs, r3⟩, hpe, hmap⟩ := h
                        injection hmap with hfst hsnd
                        rw [show r3 = rest from hsnd] at hpe
                        refine boundary_extend (c :: r.takeWhile isJsonWs)
                          ?_ (ihE _ _ _ hpe)
                        have hsp2 : r = r.takeWhile isJsonWs ++ skipJWs r :=
                          (List.takeWhile_append_dropWhile _ _).symm
                        exact (congrArg (List.cons c) hsp2).trans (by simp)
                  · cases h
                · rw [if_neg h4] at h
                  by_cases h5 : c = 'n'
                  · rw [if_pos h5] at h
                    split at h
                    · next r2 =>
                        injection h with hpair
                        injection hpair with hv hr
                        refine boundary_concat [c, 'u', 'l'] 'l'
                          ?_ (by decide)
                        rw [← hr]
                        rfl
                    · cases h
                  · rw [if_neg h5] at h
                    by_cases h6 : c = 't'
                    · rw [if_pos h6] at h
                      split at h
                      · next r2 =>
                          injection h with hpair
                          injection hpair with hv hr
                          refine boundary_concat [c, 'r', 'u'] 'e'
                            ?_ (by decide)
                          rw [← hr]
                          rfl
                      · cases h
                    · rw [if_neg h6] at h
                      by_cases h7 : c = 'f'
                      · rw [if_pos h7] at h
                        split at h
                        · next r2 =>
                            injection h with hpair
                            injection hpair with hv hr
                            refine boundary_concat [c, 'a', 'l', 's'] 'e'
                              ?_ (by decide)
                            rw [← hr]
                            rfl
                        · cases h
                      · rw [if_neg h7] at h
                        by_cases h8 : c = '-'
                        · rw [if_pos h8] at h
                          simp only [Option.map_eq_some'] at h
                          obtain ⟨⟨nv, r3⟩, hpn, hmap⟩ := h
                          injection hmap with hfst hsnd
                          rw [show r3 = rest from hsnd] at hpn
                          obtain ⟨c2, ch, hb1, hb2, hb3⟩ :=
                            parseNum_boundary hpn
                          exact boundary_extend [c] rfl
                            ⟨c2, ch, hb1, hb2, isDigitChar_not_ws hb3⟩
                        · rw [if_neg h8] at h
                          by_cases h9 : isDigitChar c = true
                          · rw [if_pos h9] at h
                            simp only [Option.map_eq_some'] at h
                            obtain ⟨⟨nv, r3⟩, hpn, hmap⟩ := h
                            injection hmap with hfst hsnd
                            rw [show r3 = rest from hsnd] at hpn
                            obtain ⟨c2, ch, hb1, hb2, hb3⟩ :=
                              parseNum_boundary hpn
                            exact ⟨c2, ch, hb1, hb2, isDigitChar_not_ws hb3⟩
                          · rw [if_neg h9] at h
                            cases h
      · -- parseElems
        intro l vs rest h
        simp only [parseElems] at h
        split at h
        · cases h
        · next v r0 hpv =>
            obtain ⟨cv, chv, hv1, hv2, hv3⟩ := ihV _ _ _ hpv
            have hsp : r0 = r0.takeWhile isJsonWs ++ skipJWs r0 :=
              (List.takeWhile_append_dropWhile _ _).symm
            split at h
            · next c r1 hskip =>
                rw [hskip] at hsp
                rw [hv1, hsp] at *
                by_cases h3 : c = Char.ofNat 0x5D
                · rw [if_pos h3] at h
                  injection h with hpair
                  injection hpair with hvs hr
                  refine boundary_concat (cv ++ r0.takeWhile isJsonWs) c
                    ?_ ?_
                  · rw [← hr]
                    simp
                  · rw [h3]
                    decide
                · rw [if_neg h3] at h
                  by_cases h4 : c = ','
                  · rw [if_pos h4] at h
                    split at h
                    · next vs2 r2 hpe =>
                        injection h with hpair
                        injection hpair with hvs hr
                        have hsp1 : r1 = r1.takeWhile isJsonWs ++ skipJWs r1 :=
                          (List.takeWhile_append_dropWhile _ _).symm
                        refine boundary_extend
                          ((cv ++ r0.takeWhile isJsonWs) ++
                            c :: r1.takeWhile isJsonWs)
                          ?_ (boundary_extend [] rfl
                            (by
                              rw [show r2 = rest from hr] at hpe
                              exact ihE _ _ _ hpe))
                        calc cv ++ (r0.takeWhile isJsonWs ++ c :: r1) =
                              cv ++ (r0.takeWhile isJsonWs ++
                                c :: (r1.takeWhile isJsonWs ++ skipJWs r1)) :=
                                by rw [← hsp1]
                          _ = ((cv ++ r0.takeWhile isJsonWs) ++
                                c :: r1.takeWhile isJsonWs) ++ skipJWs r1 :=
                                by simp
                    · cases h
                  · rw [if_neg h4] at h
                    cases h
            · cases h
      · -- parseMembers
        intro l ms rest h
        simp only [parseMembers] at h
        split at h
        case h_2 => cases h
        case h_1 c r0 =>
            by_cases h1 : c = Char.ofNat 0x22
            · rw [if_pos h1] at h
              split at h
              · next k r1 hpk =>
                  obtain ⟨ck, chk, hk1, hk2, hk3⟩ :=
                    parseStringBody_boundary fuel _ _ _ hpk
                  have hsp1 : r1 = r1.takeWhile isJsonWs ++ skipJWs r1 :=
                    (List.takeWhile_append_dropWhile _ _).symm
                  split at h
                  · next c2 r2 hskip1 =>
                      rw [hskip1] at hsp1
                      by_cases h3 : c2 = ':'
                      · rw [if_pos h3] at h
                        split at h
                        · next v r3 hpv =>
                            obtain ⟨cv, chv, hv1, hv2, hv3⟩ := ihV _ _ _ hpv
                            have hsp2 : r2 = r2.takeWhile isJsonWs ++
                                skipJWs r2 :=
                              (List.takeWhile_append_dropWhile _ _).symm
                            have hsp3 : r3 = r3.takeWhile isJsonWs ++
                                skipJWs r3 :=
                              (List.takeWhile_append_dropWhile _ _).symm
                            split at h
                            · next c3 r4 hskip3 =>
                                rw [hskip3] at hsp3
                                by_cases h5 : c3 = Char.ofNat 0x7D
                                · rw [if_pos h5] at h
                                  injection h with hpair
                                  injection hpair with hms hr
                                  refine boundary_concat
                                    ((((c :: ck) ++ r1.takeWhile isJsonWs) ++
                                      c2 :: r2.takeWhile isJsonWs) ++
                                      (cv ++ r3.takeWhile isJsonWs)) c3 ?_ ?_
                                  · rw [← hr]
                                    calc c :: r0 = c :: (ck ++ r1) := by
                                          rw [hk1]
                                      _ = c :: (ck ++ (r1.takeWhile isJsonWs ++
                                            c2 :: r2)) := by rw [← hsp1]
                                      _ = c :: (ck ++ (r1.takeWhile isJsonWs ++
                                            c2 :: (r2.takeWhile isJsonWs ++
                                              skipJWs r2))) := by rw [← hsp2]
                                      _ = c :: (ck ++ (r1.takeWhile isJsonWs ++
                                            c2 :: (r2.takeWhile isJsonWs ++
                                              (cv ++ r3)))) := by rw [← hv1]
                                      _ = c :: (ck ++ (r1.takeWhile isJsonWs ++
                                            c2 :: (r2.takeWhile isJsonWs ++
                                              (cv ++ (r3.takeWhile isJsonWs ++
                                                c3 :: r4)))))  := by rw [← hsp3]
                                      _ = ((((c :: ck) ++
                                            r1.takeWhile isJsonWs) ++
                                            c2 :: r2.takeWhile isJsonWs) ++
                                            (cv ++ r3.takeWhile isJsonWs)) ++
                                            c3 :: r4 := by simp
                                  · rw [h5]
                                    decide
                                · rw [if_neg h5] at h
                                  by_cases h6 : c3 = ','
                                  · rw [if_pos h6] at h
                                    split at h
                                    · next ms2 r5 hpm =>
                                        injection h with hpair
                                        injection hpair with hms hr
                                        have hsp4 : r4 =
                                            r4.takeWhile isJsonWs ++
                                              skipJWs r4 :=
                                          (List.takeWhile_append_dropWhile
                                            _ _).symm
                                        refine boundary_extend
                                          (((((c :: ck) ++
                                            r1.takeWhile isJsonWs) ++
                                            c2 :: r2.takeWhile isJsonWs) ++
                                            (cv ++ r3.takeWhile isJsonWs)) ++
                                            c3 :: r4.takeWhile isJsonWs)
                                          ?_ (by
                                            rw [show r5 = rest from hr] at hpm
                                            exact ihM _ _ _ hpm)
                                        calc c :: r0 = c :: (ck ++ r1) := by
                                              rw [hk1]
                                          _ = c :: (ck ++
                                                (r1.takeWhile isJsonWs ++
                                                c2 :: r2)) := by rw [← hsp1]
                                          _ = c :: (ck ++
                                                (r1.takeWhile isJsonWs ++
                                                c2 :: (r2.takeWhile isJsonWs ++
                                                  skipJWs r2))) := by
                                                rw [← hsp2]
                                          _ = c :: (ck ++
                                                (r1.takeWhile isJsonWs ++
                                                c2 :: (r2.takeWhile isJsonWs ++
                                                  (cv ++ r3)))) := by
                                                rw [← hv1]
                                          _ = c :: (ck ++
                                                (r1.takeWhile isJsonWs ++
                                                c2 :: (r2.takeWhile isJsonWs ++
                                                  (cv ++
                                                  (r3.takeWhile isJsonWs ++
                                                    c3 :: r4))))) := by
                                                rw [← hsp3]
                                          _ = c :: (ck ++
                                                (r1.takeWhile isJsonWs ++
                                                c2 :: (r2.takeWhile isJsonWs ++
                                                  (cv ++
                                                  (r3.takeWhile isJsonWs ++
                                                    c3 :: (r4.takeWhile
                                                      isJsonWs ++
                                                      skipJWs r4)))))) := by
                                                rw [← hsp4]
                                          _ = (((((c :: ck) ++
                                                r1.takeWhile isJsonWs) ++
                                                c2 :: r2.takeWhile isJsonWs) ++
                                                (cv ++
                                                r3.takeWhile isJsonWs)) ++
                                                c3 :: r4.takeWhile isJsonWs) ++
                                                skipJWs r4 := by simp
                                    · cases h
                                  · rw [if_neg h6] at h
                                    cases h
                            · cases h
                        · cases h
                      · rw [if_neg h3] at h
                        cases h
                  · cases h
              · cases h
            · rw [if_neg h1] at h
              cases h

/-- A successful value parse starts at a non-whitespace character. -/
theorem parseVal_head : ∀ (fuel : Nat) (l : List Char) (x : Json × List Char),
    parseVal fuel l = some x →
    ∃ ch lt, l = ch :: lt ∧ isJsWs ch = false
  | 0, l, x, h => by simp [parseVal] at h
  | fuel + 1, [], x, h => by simp [parseVal] at h
  | fuel + 1, c :: r, x, h => by
      refine ⟨c, r, rfl, ?_⟩
      simp only [parseVal] at h
      by_cases h1 : c = Char.ofNat 0x22
      · subst h1
        decide
      · rw [if_neg h1] at h
        by_cases h2 : c = Char.ofNat 0x7B
        · subst h2
          decide
        · rw [if_neg h2] at h
          by_cases h3 : c = Char.ofNat 0x5B
          · subst h3
            decide
          · rw [if_neg h3] at h
            by_cases h4 : c = 'n'
            · subst h4
              decide
            · rw [if_neg h4] at h
              by_cases h5 : c = 't'
              · subst h5
                decide
              · rw [if_neg h5] at h
                by_cases h6 : c = 'f'
                · subst h6
                  decide
                · rw [if_neg h6] at h
                  by_cases h7 : c = '-'
                  · subst h7
                    decide
                  · rw [if_neg h7] at h
                    by_cases h8 : isDigitChar c = true
                    · exact isDigitChar_not_ws h8
                    · rw [if_neg h8] at h
                      cases h

/-- The value parser rejects any input starting with a backtick. -/
theorem parseVal_backtick (fuel : Nat) (l : List Char) :
    parseVal fuel (Char.ofNat 0x60 :: l) = none := by
  cases fuel with
  | zero => rfl
  | succ f => rfl

/-- Unfolding of a successful `jsonParse`. -/
theorem jsonParse_some_elim {t : List Char} {v : Json}
    (h : jsonParse t = some v) :
    parseVal (2 * (trimJsonWs t).length + 2) (trimJsonWs t) =
      some (v, []) := by
  simp only [jsonParse] at h
  cases hp : parseVal (2 * (trimJsonWs t).length + 2) (trimJsonWs t) with
  | none =>
      rw [hp] at h
      cases h
  | some p =>
      obtain ⟨v2, rest⟩ := p
      rw [hp] at h
      simp only at h
      cases hrest : rest with
      | nil =>
          rw [hrest] at h hp
          simp only [List.isEmpty_nil, if_true, Option.some_inj] at h
          rw [h]
      | cons a b =>
          rw [hrest] at h
          simp at h

/-- Stripping the closing fence undoes appending `"\n```"`. -/
theorem stripCloseFence_append_close (w : List Char) :
    stripCloseFence (w ++ (Char.ofNat 0xA ::
      [Char.ofNat 0x60, Char.ofNat 0x60, Char.ofNat 0x60])) = w := by
  unfold stripCloseFence
  have hrev : (w ++ (Char.ofNat 0xA ::
      [Char.ofNat 0x60, Char.ofNat 0x60, Char.ofNat 0x60])).reverse =
      Char.ofNat 0x60 :: Char.ofNat 0x60 :: Char.ofNat 0x60 ::
        Char.ofNat 0xA :: w.reverse := by
    simp
  rw [hrev, List.dropWhile_cons_of_neg (by decide)]
  simp

theorem fence_recovery (t : List Char) (v : Json) (h : jsonParse t = some v) :
    jsonParse (fenceWrap t) = none ∧
      cleanedResponse (fenceWrap t) = trimJsonWs t ∧
      jsonParse (trimJsonWs t) = some v := by
  have hp := jsonParse_some_elim h
  obtain ⟨chH, ltH, huH, hwsH⟩ := parseVal_head _ _ _ hp
  obtain ⟨cB, chB, hBsplit, hBlast, hBws⟩ :=
    (parse_boundary (2 * (trimJsonWs t).length + 2)).1 _ _ _ hp
  have huLast : (trimJsonWs t).getLast? = some chB := by
    rw [hBsplit, List.append_nil]
    exact hBlast
  have htw : t = t.takeWhile isJsonWs ++ t.dropWhile isJsonWs :=
    (List.takeWhile_append_dropWhile _ _).symm
  obtain ⟨suf, hsuf, hallsuf⟩ :=
    dropTrailing_decomp isJsonWs (t.dropWhile isJsonWs)
  have hsuf2 : t.dropWhile isJsonWs = trimJsonWs t ++ suf := hsuf
  have hBigDrop : t.dropWhile isJsWs = trimJsonWs t ++ suf := by
    conv_lhs => rw [htw]
    rw [List.dropWhile_append]
    have h1 : ((t.takeWhile isJsonWs).dropWhile isJsWs) = [] := by
      rw [List.dropWhile_eq_nil_iff]
      intro x hx
      exact isJsonWs_imp_isJsWs (List.mem_takeWhile_imp hx)
    rw [h1]
    simp only [List.isEmpty_nil, if_true]
    rw [hsuf2, huH, List.cons_append,
      List.dropWhile_cons_of_neg (by simp [hwsH])]
  have hlastArg : ∀ ch, (trimJsonWs t).getLast? = some ch →
      isJsWs ch = false := by
    intro ch hch
    rw [huLast] at hch
    injection hch with hch2
    rw [← hch2]
    exact hBws
  have hfw : fenceWrap t = Char.ofNat 0x60 :: Char.ofNat 0x60 ::
      Char.ofNat 0x60 :: 'j' :: 's' :: 'o' :: 'n' :: Char.ofNat 0xA ::
      (t ++ "\n```".data) := rfl
  have hfl : (fenceWrap t).getLast? = some (Char.ofNat 0x60) := by
    unfold fenceWrap
    rw [List.getLast?_append_of_ne_nil _ (by decide : "\n```".data ≠ [])]
    rfl
  have hTrimFence : jsTrim (fenceWrap t) = fenceWrap t := by
    unfold jsTrim
    have h1 : (fenceWrap t).dropWhile isJsWs = fenceWrap t := by
      rw [hfw, List.dropWhile_cons_of_neg (by decide)]
    rw [h1]
    apply dropTrailing_eq_self_of_last
    intro ch hch
    rw [hfl] at hch
    injection hch with hch2
    rw [← hch2]
    decide
  have hJF : trimJsonWs (fenceWrap t) = fenceWrap t := by
    unfold trimJsonWs
    have h1 : (fenceWrap t).dropWhile isJsonWs = fenceWrap t := by
      rw [hfw, List.dropWhile_cons_of_neg (by decide)]
    rw [h1]
    apply dropTrailing_eq_self_of_last
    intro ch hch
    rw [hfl] at hch
    injection hch with hch2
    rw [← hch2]
    decide
  have hNone : jsonParse (fenceWrap t) = none := by
    simp only [jsonParse]
    rw [hJF, hfw, parseVal_backtick]
  have hne2 : (t.dropWhile isJsWs).isEmpty = false := by
    rw [hBigDrop, huH]
    rfl
  have hOpen : stripOpenFence (fenceWrap t) =
      (t.dropWhile isJsWs) ++ "\n```".data := by
    have hstep : stripOpenFence (fenceWrap t) =
        (Char.ofNat 0xA :: (t ++ "\n```".data)).dropWhile isJsWs := by
      rw [hfw]
      rfl
    rw [hstep, List.dropWhile_cons_of_pos (by decide), List.dropWhile_append,
      hne2]
    simp
  have hClose : stripCloseFence ((t.dropWhile isJsWs) ++ "\n```".data) =
      t.dropWhile isJsWs := stripCloseFence_append_close _
  have hsufBig : ∀ x ∈ suf, isJsWs x = true :=
    fun x hx => isJsonWs_imp_isJsWs (hallsuf x hx)
  have hq1 : (trimJsonWs t ++ suf).dropWhile isJsWs =
      trimJsonWs t ++ suf := by
    rw [huH, List.cons_append, List.dropWhile_cons_of_neg (by simp [hwsH])]
  have hCleaned : cleanedResponse (fenceWrap t) = trimJsonWs t := by
    unfold cleanedResponse
    rw [hTrimFence, hOpen, hClose, hBigDrop]
    unfold jsTrim
    rw [hq1, dropTrailing_append_all isJsWs suf hsufBig]
    exact dropTrailing_eq_self_of_last _ _ hlastArg
  have hSelf : trimJsonWs (trimJsonWs t) = trimJsonWs t := by
    show dropTrailing isJsonWs ((trimJsonWs t).dropWhile isJsonWs) =
      trimJsonWs t
    have h1 : (trimJsonWs t).dropWhile isJsonWs = trimJsonWs t := by
      rw [huH, List.dropWhile_cons_of_neg
        (by simp [not_isJsWs_imp_not_isJsonWs hwsH])]
    rw [h1]
    apply dropTrailing_eq_self_of_last
    intro ch hch
    have hws := hlastArg ch hch
    exact not_isJsWs_imp_not_isJsonWs hws
  have hFinal : jsonParse (trimJsonWs t) = some v := by
    simp only [jsonParse]
    rw [hSelf, hp]
    rfl
  exact ⟨hNone, hCleaned, hFinal⟩

/-- C5: recovery applied to the markdown-fenced wrapper of a JSON text t
yields exactly the value direct parsing of t yields, and on text where both
the direct parse and the fence-stripped parse fail, recovery fails with a
parse error carrying the raw model text. -/
theorem c5_response_recovery :
    (∀ (t : List Char) (v : Json), jsonParse t = some v →
      recoverJson (fenceWrap t) = Except.ok v) ∧
    (∀ s : List Char, jsonParse s = none →
      jsonParse (cleanedResponse s) = none →
      recoverJson s = Except.error ⟨s⟩) := by
  constructor
  · intro t v h
    obtain ⟨hnone, hclean, hsome⟩ := fence_recovery t v h
    unfold recoverJson
    rw [hnone, hclean, hsome]
  · intro s h1 h2
    unfold recoverJson
    rw [h1, h2]

theorem c5_response_recovery_witness :
    recoverJson (fenceWrap "null".data) = Except.ok Json.null ∧
      recoverJson "nul".data = Except.error ⟨"nul".data⟩ :=
  ⟨c5_response_recovery.1 "null".data Json.null rfl,
   c5_response_recovery.2 "nul".data rfl rfl⟩

/-! ## Normalization lemmas -/

theorem mapIdxFrom_length (f : Nat → α → β) :
    ∀ (l : List α) (i : Nat), (mapIdxFrom f i l).length = l.length
  | [], _ => rfl
  | _ :: as, i => by
      simp [mapIdxFrom, mapIdxFrom_length f as (i + 1)]

theorem mem_mapIdxFrom (f : Nat → α → β) :
    ∀ (l : List α) (i : Nat) (x : β), x ∈ mapIdxFrom f i l →
      ∃ j a, a ∈ l ∧ x = f j a
  | [], _, _, h => by cases h
  | a :: as, i, x, h => by
      rcases List.mem_cons.1 h with h | h
      · exact ⟨i, a, List.mem_cons_self a as, h⟩
      · obtain ⟨j, b, hb, hx⟩ := mem_mapIdxFrom f as (i + 1) x h
        exact ⟨j, b, List.mem_cons_of_mem a hb, hx⟩

theorem tasks_idTitle_map :
    ∀ (l : List PlanTask) (i : Nat),
      (mapIdxFrom normalizeTask i l).map (fun t => (t.id, t.title)) =
        l.map (fun t => (t.id, t.title))
  | [], _ => rfl
  | t :: ts, i => by
      simp [mapIdxFrom, normalizeTask, tasks_idTitle_map ts (i + 1)]

theorem tasks_serial_map :
    ∀ (l : List PlanTask) (i : Nat),
      (mapIdxFrom normalizeTask i l).map (fun t => t.serial) =
        (List.range' (i + 1) l.length).map natSerial
  | [], _ => rfl
  | t :: ts, i => by
      simp [mapIdxFrom, normalizeTask, List.range'_succ,
        tasks_serial_map ts (i + 1)]

theorem tasks_status_all :
    ∀ (l : List PlanTask) (i : Nat),
      ∀ t ∈ mapIdxFrom normalizeTask i l, t.status = TaskStatus.not_started := by
  intro l i t ht
  obtain ⟨j, a, _, hx⟩ := mem_mapIdxFrom normalizeTask l i t ht
  rw [hx]
  rfl

theorem phases_name_map :
    ∀ (l : List PlanPhase) (i : Nat),
      (mapIdxFrom normalizePhase i l).map (fun ph => ph.name) =
        l.map (fun ph => ph.name)
  | [], _ => rfl
  | ph :: ps, i => by
      simp [mapIdxFrom, normalizePhase, phases_name_map ps (i + 1)]

theorem phases_serial_map :
    ∀ (l : List PlanPhase) (i : Nat),
      (mapIdxFrom normalizePhase i l).map (fun ph => ph.serial) =
        (List.range' (i + 1) l.length).map natSerial
  | [], _ => rfl
  | ph :: ps, i => by
      simp [mapIdxFrom, normalizePhase, List.range'_succ,
        phases_serial_map ps (i + 1)]

theorem phases_tasks_idTitle_map :
    ∀ (l : List PlanPhase) (i : Nat),
      (mapIdxFrom normalizePhase i l).map
          (fun ph => ph.tasks.map (fun t => (t.id, t.title))) =
        l.map (fun ph => (ph.tasks.take MAX_TASKS_PER_PHASE).map
          (fun t => (t.id, t.title)))
  | [], _ => rfl
  | ph :: ps, i => by
      simp [mapIdxFrom, normalizePhase, tasks_idTitle_map,
        phases_tasks_idTitle_map ps (i + 1)]

/-- C3: normalization is total and enforces the plan invariants for every
schema-valid plan: at most MAX_PHASES phases, at most MAX_TASKS_PER_PHASE
tasks per phase, phase serials exactly 1..N in order, task serials exactly
1..M within each phase, and every task status forced to not_started. -/
theorem c3_normalization_enforces_invariants (p : ProjectPlan) :
    (normalizePlan p).phases.length ≤ MAX_PHASES ∧
    ((normalizePlan p).phases.all
      (fun ph => decide (ph.tasks.length ≤ MAX_TASKS_PER_PHASE))) = true ∧
    (normalizePlan p).phases.map (fun ph => ph.serial) =
      (List.range' 1 (normalizePlan p).phases.length).map natSerial ∧
    ((normalizePlan p).phases.all
      (fun ph => decide (ph.tasks.map (fun t => t.serial) =
        (List.range' 1 ph.tasks.length).map natSerial))) = true ∧
    ((normalizePlan p).phases.all
      (fun ph => ph.tasks.all
        (fun t => decide (t.status = TaskStatus.not_started)))) = true := by
  refine ⟨?_, ?_, ?_, ?_, ?_⟩
  · show (mapIdxFrom normalizePhase 0 (p.phases.take MAX_PHASES)).length ≤
      MAX_PHASES
    rw [mapIdxFrom_length]
    rw [List.length_take]
    exact min_le_left _ _
  · rw [List.all_eq_true]
    intro ph hph
    obtain ⟨j, a, _, hx⟩ := mem_mapIdxFrom normalizePhase _ _ ph hph
    rw [hx]
    simp only [normalizePhase, decide_eq_true_eq]
    rw [mapIdxFrom_length, List.length_take]
    exact min_le_left _ _
  · show (mapIdxFrom normalizePhase 0 (p.phases.take MAX_PHASES)).map
        (fun ph => ph.serial) =
      (List.range' 1 (mapIdxFrom normalizePhase 0
        (p.phases.take MAX_PHASES)).length).map natSerial
    rw [phases_serial_map, mapIdxFrom_length]
  · rw [List.all_eq_true]
    intro ph hph
    obtain ⟨j, a, _, hx⟩ := mem_mapIdxFrom normalizePhase _ _ ph hph
    rw [hx]
    simp only [normalizePhase, decide_eq_true_eq]
    rw [tasks_serial_map, mapIdxFrom_length]
  · rw [List.all_eq_true]
    intro ph hph
    rw [List.all_eq_true]
    intro t ht
    obtain ⟨j, a, _, hx⟩ := mem_mapIdxFrom normalizePhase _ _ ph hph
    rw [hx] at ht
    simp only [decide_eq_true_eq]
    exact tasks_status_all _ _ t ht

/-- C10: normalization is a frame on everything except serials and
statuses: the goal, the names and order of the first MAX_PHASES phases,
and the ids, titles and order of the first MAX_TASKS_PER_PHASE tasks
of each kept phase are preserved; phases and tasks beyond the caps are
dropped and nothing else changes. -/
theorem c10_normalization_frame (p : ProjectPlan) :
    (normalizePlan p).goal = p.goal ∧
    (normalizePlan p).phases.map (fun ph => ph.name) =
      (p.phases.take MAX_PHASES).map (fun ph => ph.name) ∧
    (normalizePlan p).phases.map
        (fun ph => ph.tasks.map (fun t => (t.id, t.title))) =
      (p.phases.take MAX_PHASES).map
        (fun ph => (ph.tasks.take MAX_TASKS_PER_PHASE).map
          (fun t => (t.id, t.title))) := by
  refine ⟨rfl, ?_, ?_⟩
  · show (mapIdxFrom normalizePhase 0 (p.phases.take MAX_PHASES)).map
        (fun ph => ph.name) = _
    rw [phases_name_map]
  · show (mapIdxFrom normalizePhase 0 (p.phases.take MAX_PHASES)).map
        (fun ph => ph.tasks.map (fun t => (t.id, t.title))) = _
    rw [phases_tasks_idTitle_map]

/-! ## Method-check ordering (C7) -/

/-- C7: refuted as stated — the rate-limit check runs before the method
check, so a throttled client's non-POST request gets 429, not 405: with
the generate bucket for client c full (count 5, resetAt 100000) a GET at
t = 50000 is answered 429. -/
theorem c7_nonpost_throttled_gets_429 :
    statusOf (generateAction envOk ⟨"GET".data, "c", none⟩
      (AiOutcome.err none) 50000
      ⟨rlSet (fun _ => none) "c" ⟨5, 100000⟩, 0⟩) = some 429 ∧
      ("GET".data ≠ "POST".data) := by
  constructor
  · rfl
  · decide

/-- C7 (amended): for every non-POST invocation of either endpoint, the
response status is 405 when the client's rate-limit check admits the
request and 429 when it blocks it; the method rejection is never skipped
for an admitted request. -/
theorem c7_method_not_allowed_amended (env : EnvMap) (req : GenRequest)
    (ai : AiOutcome) (now : Nat) (s : RLState)
    (hm : req.method ≠ "POST".data) :
    statusOf (generateAction env req ai now s) =
      some (if (checkRateLimit req.clientId RATE_LIMIT_GENERATE_MAX
        RATE_LIMIT_GENERATE_WINDOW_MS now s).1.allowed then 405 else 429) ∧
    statusOf (explainAction env req ai now s) =
      some (if (checkRateLimit req.clientId RATE_LIMIT_EXPLAIN_MAX
        RATE_LIMIT_EXPLAIN_WINDOW_MS now s).1.allowed then 405 else 429) := by
  constructor
  · rcases hrl : checkRateLimit req.clientId RATE_LIMIT_GENERATE_MAX
      RATE_LIMIT_GENERATE_WINDOW_MS now s with ⟨rl, s1⟩
    simp only [generateAction, hrl]
    cases hb : rl.allowed with
    | false => simp [statusOf]
    | true => simp [statusOf, hb, hm]
  · rcases hrl : checkRateLimit req.clientId RATE_LIMIT_EXPLAIN_MAX
      RATE_LIMIT_EXPLAIN_WINDOW_MS now s with ⟨rl, s1⟩
    simp only [explainAction, hrl]
    cases hb : rl.allowed with
    | false => simp [statusOf]
    | true => simp [statusOf, hb, hm]

theorem c7_method_not_allowed_amended_witness :
    statusOf (generateAction envOk ⟨"GET".data, "w7", none⟩
        (AiOutcome.err none) 0 (rlInit 0)) =
      some (if (checkRateLimit "w7" RATE_LIMIT_GENERATE_MAX
        RATE_LIMIT_GENERATE_WINDOW_MS 0 (rlInit 0)).1.allowed
        then 405 else 429) ∧
    statusOf (explainAction envOk ⟨"GET".data, "w7", none⟩
        (AiOutcome.err none) 0 (rlInit 0)) =
      some (if (checkRateLimit "w7" RATE_LIMIT_EXPLAIN_MAX
        RATE_LIMIT_EXPLAIN_WINDOW_MS 0 (rlInit 0)).1.allowed
        then 405 else 429) :=
  c7_method_not_allowed_amended envOk ⟨"GET".data, "w7", none⟩
    (AiOutcome.err none) 0 (rlInit 0) (by decide)

/-! ## Validation classification (C6) -/

theorem errsOf_parseStrField (k : String) (v : Option Json) (i : Issue)
    (h : i ∈ errsOf (parseStrField k v)) : i = ⟨[PathElem.key k]⟩ := by
  cases v with
  | none =>
      simp only [parseStrField, errsOf, List.mem_singleton] at h
      exact h
  | some j =>
      cases j <;> simp [parseStrField, errsOf] at h <;> exact h

theorem isInputIssue_cons_goal (t : List PathElem) :
    isInputIssue ⟨PathElem.key "goal" :: t⟩ = false := rfl

theorem isInputIssue_cons_phases (t : List PathElem) :
    isInputIssue ⟨PathElem.key "phases" :: t⟩ = false := rfl

theorem isInputIssue_nil : isInputIssue ⟨[]⟩ = false := rfl

/-- Every issue a `projectPlanSchema` failure produces has an empty path
or a path starting at goal or phases, so the route's input-validation
test never matches it. -/
theorem validatePlanJson_issue_heads (j : Json) (issues : List Issue)
    (h : validatePlanJson j = Except.error issues) :
    ∀ i ∈ issues, isInputIssue i = false := by
  intro i hi
  cases j with
  | obj fields =>
      simp only [validatePlanJson] at h
      split at h
      · cases h
      · injection h with h2
        rw [← h2] at hi
        rcases List.mem_append.1 hi with hg | hp
        · rw [errsOf_parseStrField "goal" _ i hg]
          exact isInputIssue_cons_goal []
        · split at hp
          · cases hv : validatePhaseList 0 _ with
            | ok ps2 =>
                rw [hv] at hp
                simp [Except.mapError, errListOf] at hp
            | error l =>
                rw [hv] at hp
                simp only [Except.mapError, errListOf] at hp
                rcases List.mem_map.1 hp with ⟨i0, _, hi0⟩
                rw [← hi0]
                exact isInputIssue_cons_phases i0.path
          · simp only [errListOf] at hp
            rcases List.mem_singleton.1 hp with rfl
            exact isInputIssue_cons_phases []
  | null =>
      simp only [validatePlanJson] at h
      injection h with h2
      rw [← h2] at hi
      rcases List.mem_singleton.1 hi with rfl
      exact isInputIssue_nil
  | bool b =>
      simp only [validatePlanJson] at h
      injection h with h2
      rw [← h2] at hi
      rcases List.mem_singleton.1 hi with rfl
      exact isInputIssue_nil
  | num m e =>
      simp only [validatePlanJson] at h
      injection h with h2
      rw [← h2] at hi
      rcases List.mem_singleton.1 hi with rfl
      exact isInputIssue_nil
  | str s2 =>
      simp only [validatePlanJson] at h
      injection h with h2
      rw [← h2] at hi
      rcases List.mem_singleton.1 hi with rfl
      exact isInputIssue_nil
  | arr es =>
      simp only [validatePlanJson] at h
      injection h with h2
      rw [← h2] at hi
      rcases List.mem_singleton.1 hi with rfl
      exact isInputIssue_nil

/-- C6: refuted as stated — a body whose only schema violation is a
non-boolean `regenerate` fails the payload schema, yet the endpoint
answers 500, not 400, because the catch block's path test omits the
regenerate field. -/
theorem c6_regenerate_misclassified :
    validatePayload (Json.obj [("projectGoal", Json.str "build an app"),
        ("experienceLevel", Json.str "beginner"),
        ("timeAvailability", Json.str "3-5"),
        ("regenerate", Json.num 1 0)]) =
      Except.error [⟨[PathElem.key "regenerate"]⟩] ∧
    statusOf (generateAction envOk
      ⟨"POST".data, "c6", some (Json.obj
        [("projectGoal", Json.str "build an app"),
         ("experienceLevel", Json.str "beginner"),
         ("timeAvailability", Json.str "3-5"),
         ("regenerate", Json.num 1 0)])⟩
      (AiOutcome.err none) 0 (rlInit 0)) = some 500 :=
  ⟨rfl, rfl⟩

/-- C6 (amended): when an admitted POST request with a well-formed
environment reaches validation, a payload-schema failure is answered 400
exactly when some issue's path starts at one of projectGoal,
experienceLevel, timeAvailability or deadline (so e.g. regenerate or
root-level failures get 500), and a model output that parses as JSON but
fails the plan schema is always answered 500, never 400. -/
theorem c6_validation_classes_amended :
    (∀ (env : EnvMap) (req : GenRequest) (ai : AiOutcome) (now : Nat)
        (s : RLState) (j : Json) (issues : List Issue),
      (checkRateLimit req.clientId RATE_LIMIT_GENERATE_MAX
        RATE_LIMIT_GENERATE_WINDOW_MS now s).1.allowed = true →
      req.method = "POST".data →
      (∃ cfg, getConfig env = some cfg) →
      req.body = some j →
      validatePayload j = Except.error issues →
      statusOf (generateAction env req ai now s) =
        some (if issues.any isInputIssue = true then 400 else 500)) ∧
    (∀ (env : EnvMap) (req : GenRequest) (text : List Char) (now : Nat)
        (s : RLState) (j : Json) (p : GenPayload) (parsed : Json)
        (issues : List Issue),
      (checkRateLimit req.clientId RATE_LIMIT_GENERATE_MAX
        RATE_LIMIT_GENERATE_WINDOW_MS now s).1.allowed = true →
      req.method = "POST".data →
      (∃ cfg, getConfig env = some cfg) →
      req.body = some j →
      validatePayload j = Except.ok p →
      recoverJson text = Except.ok parsed →
      validatePlanJson parsed = Except.error issues →
      statusOf (generateAction env req (AiOutcome.ok text) now s) =
        some 500) := by
  constructor
  · intro env req ai now s j issues hrl hm hcfg hb hv
    obtain ⟨cfg, hc⟩ := hcfg
    rcases hq : checkRateLimit req.clientId RATE_LIMIT_GENERATE_MAX
      RATE_LIMIT_GENERATE_WINDOW_MS now s with ⟨rl, s1⟩
    rw [hq] at hrl
    have hrl2 : rl.allowed = true := hrl
    cases hany : issues.any isInputIssue with
    | true =>
        simp [generateAction, hq, hrl2, hm, hc, hb, hv, hany, statusOf]
    | false =>
        simp [generateAction, hq, hrl2, hm, hc, hb, hv, hany, statusOf]
  · intro env req text now s j p parsed issues hrl hm hcfg hb hv hrec hpl
    obtain ⟨cfg, hc⟩ := hcfg
    rcases hq : checkRateLimit req.clientId RATE_LIMIT_GENERATE_MAX
      RATE_LIMIT_GENERATE_WINDOW_MS now s with ⟨rl, s1⟩
    rw [hq] at hrl
    have hrl2 : rl.allowed = true := hrl
    have hfalse : issues.any isInputIssue = false := by
      rw [List.any_eq_false]
      intro i hi
      simp [validatePlanJson_issue_heads parsed issues hpl i hi]
    cases hemp : text.isEmpty with
    | true =>
        simp [generateAction, hq, hrl2, hm, hc, hb, hv, hemp, statusOf]
    | false =>
        simp [generateAction, hq, hrl2, hm, hc, hb, hv, hemp, hrec, hpl,
          hfalse, statusOf]

theorem c6_validation_classes_amended_witness :
    statusOf (generateAction envOk ⟨"POST".data, "w6a", some Json.null⟩
        (AiOutcome.err none) 0 (rlInit 0)) =
      some (if ([(⟨[]⟩ : Issue)].any isInputIssue = true) then 400
        else 500) ∧
    statusOf (generateAction envOk
        ⟨"POST".data, "w6b", some (Json.obj
          [("projectGoal", Json.str "ship it"),
           ("experienceLevel", Json.str "advanced"),
           ("timeAvailability", Json.str "10+")])⟩
        (AiOutcome.ok "null".data) 0 (rlInit 0)) = some 500 :=
  ⟨c6_validation_classes_amended.1 envOk
      ⟨"POST".data, "w6a", some Json.null⟩ (AiOutcome.err none) 0
      (rlInit 0) Json.null [⟨[]⟩] (by decide) rfl
      ⟨("k".data, "gpt-4o-mini".data), rfl⟩ rfl rfl,
   c6_validation_classes_amended.2 envOk
      ⟨"POST".data, "w6b", some (Json.obj
        [("projectGoal", Json.str "ship it"),
         ("experienceLevel", Json.str "advanced"),
         ("timeAvailability", Json.str "10+")])⟩
      "null".data 0 (rlInit 0) _
      ⟨"ship it".data, ExperienceLevel.advanced, TimeAvailability.h10plus,
        none, none⟩
      Json.null [⟨[]⟩] (by decide) rfl
      ⟨("k".data, "gpt-4o-mini".data), rfl⟩ rfl rfl rfl rfl⟩

/-! ## Failure totality (C8) -/

/-- C8: refuted as stated — `getConfig()` runs outside the try block, so
with a missing API key the generation action throws instead of returning
a structured failure response: the exception escapes the handler. -/
theorem c8_config_throw_escapes :
    generateAction ⟨none, none⟩ ⟨"POST".data, "c8", none⟩
        (AiOutcome.err none) 0 (rlInit 0) = Except.error () ∧
    specStructuredResponse (generateAction ⟨none, none⟩
      ⟨"POST".data, "c8", none⟩ (AiOutcome.err none) 0 (rlInit 0)) =
      false :=
  ⟨rfl, rfl⟩

/-- C8 (amended): whenever the environment passes `getConfig`, the
generation action is total on failures: it always returns a response, the
status is one of 200/400/405/429/500, and every non-200 response carries
a structured success:false body. -/
theorem c8_structured_failures_amended (env : EnvMap) (req : GenRequest)
    (ai : AiOutcome) (now : Nat) (s : RLState)
    (cfg : List Char × List Char) (hc : getConfig env = some cfg) :
    specStructuredResponse (generateAction env req ai now s) = true := by
  rcases hq : checkRateLimit req.clientId RATE_LIMIT_GENERATE_MAX
    RATE_LIMIT_GENERATE_WINDOW_MS now s with ⟨rl, s1⟩
  simp only [generateAction, hq]
  by_cases hb : rl.allowed = false
  · rw [if_pos hb]
    rfl
  · rw [if_neg hb]
    by_cases hm : req.method ≠ "POST".data
    · rw [if_pos hm]
      rfl
    · rw [if_neg hm]
      rw [hc]
      cases req.body with
      | none => rfl
      | some j =>
          cases hv : validatePayload j with
          | error issues =>
              by_cases hany : issues.any isInputIssue = true
              · simp [hv, hany, specStructuredResponse, allowedStatus,
                  isFailureBody]
              · simp only [Bool.not_eq_true] at hany
                simp [hv, hany, specStructuredResponse, allowedStatus,
                  isFailureBody]
          | ok p =>
              cases ai with
              | err st =>
                  cases st with
                  | none => simp [hv, specStructuredResponse,
                      allowedStatus, isFailureBody]
                  | some code =>
                      by_cases hcode : code = 429
                      · simp [hv, hcode, specStructuredResponse,
                          allowedStatus, isFailureBody]
                      · simp [hv, hcode, specStructuredResponse,
                          allowedStatus, isFailureBody]
              | ok text =>
                  cases hemp : text.isEmpty with
                  | true => simp [hv, hemp, specStructuredResponse,
                      allowedStatus, isFailureBody]
                  | false =>
                      cases hrec : recoverJson text with
                      | error f => simp [hv, hemp, hrec,
                          specStructuredResponse, allowedStatus,
                          isFailureBody]
                      | ok parsed =>
                          cases hpl : validatePlanJson parsed with
                          | error issues =>
                              by_cases hany : issues.any isInputIssue = true
                              · simp [hv, hemp, hrec, hpl, hany,
                                  specStructuredResponse, allowedStatus,
                                  isFailureBody]
                              · simp only [Bool.not_eq_true] at hany
                                simp [hv, hemp, hrec, hpl, hany,
                                  specStructuredResponse, allowedStatus,
                                  isFailureBody]
                          | ok plan =>
                              simp [hv, hemp, hrec, hpl,
                                specStructuredResponse, allowedStatus,
                                isFailureBody]

theorem c8_structured_failures_amended_witness :
    specStructuredResponse (generateAction envOk
      ⟨"POST".data, "w8", some Json.null⟩ (AiOutcome.err none) 0
      (rlInit 0)) = true :=
  c8_structured_failures_amended envOk ⟨"POST".data, "w8", some Json.null⟩
    (AiOutcome.err none) 0 (rlInit 0) ("k".data, "gpt-4o-mini".data) rfl
